import Mathlib

/-!
# The pubsub overlay tree (`subtree.go`): single-node view

A shallow embedding of `subtree.go` of go-libp2p-pubsub.

* Go `int` is a 64-bit two's-complement integer (the constant `10000000000`
  in `redirectJoin` does not fit a 32-bit `int`); values are `Int`, and the
  two arithmetic operations of the file (`m.NumPeers + 1`, `minc.size++`)
  wrap with `wrapInt`.
* Streams, the transport, the codec and the peer-identifier encoding are
  external. Their behaviour is an `Env` of oracles that may depend on the whole
  history of events; every effect of the node is appended to that history.
* The Go map `children` is an association list; its order stands for the
  order in which `range` happens to visit the entries.
* A run-time panic is an explicit outcome (`Ret.panic`); the unbounded
  recursion of `joinParents` takes fuel.
-/

set_option autoImplicit false

namespace Pubsub

/-! ## Data model -/

/-- A `peer.ID`: an opaque peer identifier. -/
abbrev PeerID := Nat

/-- A `net.Stream`: `id` is the identity of the stream object (Go compares
streams by identity), `remote` is `s.Conn().RemotePeer()`. -/
structure Stream where
  id : Nat
  remote : PeerID
deriving DecidableEq, Repr

/-- Modelled from the spec: the `Type` field of the message envelope, "one of
`Join`, `Update`, `State`, `Part`"; `other` stands for any unrecognized value
(the `default:` branches of the source). -/
inductive MsgType
  | Join
  | Update
  | State
  | Part
  | other (n : Nat)
deriving DecidableEq, Repr

/-- Modelled from the spec: the message envelope `Message` (its declaration is
not in `subtree.go`); the fields are those the source reads and writes. -/
structure Message where
  Typ : MsgType
  Peers : List String := []
  NumPeers : Int := 0
  TreeWidth : Int := 0
  TreeMaxWidth : Int := 0
deriving DecidableEq, Repr

/-- Error values. `transport` stands for any error handed back by the
transport or the codec, `decode` for an error of `peer.IDB58Decode`; the others
are the `fmt.Errorf` values built in `subtree.go`. -/
inductive Err
  | transport (code : Nat)
  | decode (p : String)
  | noChildPeers
  | zeroParents
  | emptyWelcome
  | noConnection
  | noConnectionAfter (last : Err)
deriving DecidableEq, Repr

/-- The struct `child`. -/
structure child where
  id : PeerID
  s : Stream
  size : Int := 0
  children : List String := []
deriving DecidableEq, Repr

/-- The struct `subtree`. `h` is the host, of which only `h.ID()` is
observed; `inp` is the field `in` (the parent link, `none` for `nil`). -/
structure subtree where
  children : List (PeerID × child)
  treeWidth : Int
  treeMaxWidth : Int
  size : Int
  protoid : String
  inp : Option Stream
  h : PeerID
deriving DecidableEq, Repr

/-- Equality of `Except` values is decidable. -/
instance instDecidableEqExcept {ε α : Type} [DecidableEq ε] [DecidableEq α] :
    DecidableEq (Except ε α)
  | .ok a, .ok b =>
    if h : a = b then isTrue (by rw [h]) else isFalse (fun h1 => h (by cases h1; rfl))
  | .error a, .error b =>
    if h : a = b then isTrue (by rw [h]) else isFalse (fun h1 => h (by cases h1; rfl))
  | .ok _, .error _ => isFalse (fun h1 => by cases h1)
  | .error _, .ok _ => isFalse (fun h1 => by cases h1)

/-- What a call did to the outside world. `admission` records that `handleJoin`
was entered (no branch reads it); `spawn` is `go c.handleChildMessages()`. -/
inductive Event
  | dial (p : PeerID) (r : Except Err Stream)
  | write (s : Stream) (m : Message) (r : Option Err)
  | read (s : Stream) (r : Except Err Message)
  | close (s : Stream)
  | admission (s : Stream) (prio : Bool)
  | spawn (c : child)
deriving DecidableEq, Repr

/-- The outside world: the identifier the next opened stream gets, and the
history of events, oldest first. -/
structure World where
  next : Nat
  trace : List Event
deriving DecidableEq, Repr

/-- The collaborators of the node. `pretty` is `peer.ID.Pretty`, `decode` is
`peer.IDB58Decode`; `dial` (`none` = success), `send` (`none` = success) and
`recv` decide how `h.NewStream`, `writeMessage` and `readMessage` end, given
the history so far. -/
structure Env where
  pretty : PeerID → String
  decode : String → Option PeerID
  dial : List Event → String → PeerID → Option Err
  send : List Event → Stream → Message → Option Err
  recv : List Event → Stream → Except Err Message

/-- How a Go function returning `error` (or a value and an `error`) ends. -/
inductive Ret (α : Type)
  | ok (a : α)
  | error (e : Err)
  | panic
deriving DecidableEq, Repr

/-! ## Machine integers -/

/-- Largest Go `int`. -/
def maxInt : Int := 2 ^ 63 - 1

/-- Smallest Go `int`. -/
def minInt : Int := -(2 ^ 63)

/-- Reduction of an integer to the 64-bit two's-complement range. -/
def wrapInt (x : Int) : Int := (x + 2 ^ 63) % 2 ^ 64 - 2 ^ 63

/-- The values a Go `int` can hold. -/
def IsInt (x : Int) : Prop := minInt ≤ x ∧ x ≤ maxInt

/-- Membership in the range of `int` is decidable. -/
instance instDecidableIsInt (x : Int) : Decidable (IsInt x) := by
  unfold IsInt
  infer_instance

/-! ## External operations -/

/-- The call `sub.h.NewStream(sub.ctx, sub.protoid, p)`: on success the stream
has a fresh identity. -/
def newStream (env : Env) (protoid : String) (w : World) (p : PeerID) :
    World × Except Err Stream :=
  match env.dial w.trace protoid p with
  | some e => ({ w with trace := w.trace ++ [Event.dial p (.error e)] }, .error e)
  | none =>
    let s : Stream := { id := w.next, remote := p }
    ({ next := w.next + 1, trace := w.trace ++ [Event.dial p (.ok s)] }, .ok s)

/-- The call `writeMessage(s, m)`; the result is its error (`none` for nil). -/
def writeMessage (env : Env) (w : World) (s : Stream) (m : Message) :
    World × Option Err :=
  let r := env.send w.trace s m
  ({ w with trace := w.trace ++ [Event.write s m r] }, r)

/-- The call `readMessage(s)`. -/
def readMessage (env : Env) (w : World) (s : Stream) : World × Except Err Message :=
  let r := env.recv w.trace s
  ({ w with trace := w.trace ++ [Event.read s r] }, r)

/-- The call `s.Close()` (its error, which the source never inspects except to
return it from `Close`, is not modelled). -/
def closeStream (w : World) (s : Stream) : World :=
  { w with trace := w.trace ++ [Event.close s] }

/-! ## The child report loop -/

/-- One iteration of the loop of `handleChildMessages`, after a successful
read of `m`. -/
def handleChildMessage (c : child) (m : Message) : child :=
  match m.Typ with
  | .State => { c with size := wrapInt (m.NumPeers + 1), children := m.Peers }
  | .Part => c
  | _ => c

/-- The loop of `handleChildMessages` over the messages read before the first
read error. -/
def handleChildMessages (c : child) (ms : List Message) : child :=
  ms.foldl handleChildMessage c

/-! ## Admission and redirect -/

/-- The scan of `redirectJoin` over the children: `min` and `minc` after
visiting the rest of the entries, `i` being the position of the next entry.
`minc` (a pointer in the source) is the position of the entry it points to. -/
def scanMin : List (PeerID × child) → Nat → Int → Option Nat → Int × Option Nat
  | [], _, min, minc => (min, minc)
  | (_, c) :: rest, i, min, minc =>
    if c.size < min then scanMin rest (i + 1) c.size (some i)
    else scanMin rest (i + 1) min minc

/-- The statement `minc.size++` on the entry at position `i`. -/
def bumpSize : List (PeerID × child) → Nat → List (PeerID × child)
  | [], _ => []
  | (k, c) :: rest, 0 => (k, { c with size := wrapInt (c.size + 1) }) :: rest
  | e :: rest, i + 1 => e :: bumpSize rest i

/-- The message `redir` built by `redirectJoin` for the chosen child. -/
def redirOf (env : Env) (sub : subtree) (minc : child) : Message :=
  { Typ := .Update, Peers := [env.pretty minc.s.remote],
    TreeWidth := sub.treeWidth, TreeMaxWidth := sub.treeMaxWidth }

/-- The method `redirectJoin`. When the scan finds no child (`minc == nil`) the
error built by `fmt.Errorf` is dropped and `minc.chlock.Lock()` dereferences a
nil pointer. -/
def redirectJoin (env : Env) (sub : subtree) (w : World) (s : Stream) :
    World × subtree × Ret Unit :=
  if sub.children.length = 0 then (w, sub, .error .noChildPeers)
  else
    match (scanMin sub.children 0 10000000000 none).2 with
    | none => (w, sub, .panic)
    | some i =>
      match sub.children[i]? with
      | none => (w, sub, .panic)
      | some (_, minc) =>
        let sub1 := { sub with children := bumpSize sub.children i }
        match writeMessage env w s (redirOf env sub minc) with
        | (w1, some e) => (w1, sub1, .error e)
        | (w1, none) => (closeStream w1 s, sub1, .ok ())

/-- The assignment `m[k] = c` on a Go map. -/
def mapInsert (k : PeerID) (c : child) : List (PeerID × child) → List (PeerID × child)
  | [] => [(k, c)]
  | (k1, c1) :: rest =>
    if k1 = k then (k, c) :: rest else (k1, c1) :: mapInsert k c rest

/-- The statement `delete(m, k)` on a Go map. -/
def mapDelete (k : PeerID) (m : List (PeerID × child)) : List (PeerID × child) :=
  m.filter (fun e => decide (e.1 ≠ k))

/-- The message `welcome` built by `handleJoin`. -/
def welcomeOf (env : Env) (sub : subtree) : Message :=
  { Typ := .Update, Peers := [env.pretty sub.h],
    TreeWidth := sub.treeWidth, TreeMaxWidth := sub.treeMaxWidth }

/-- The message `notif` built by `handleJoin` for the requester stream `s`. -/
def notifOf (env : Env) (sub : subtree) (s : Stream) : Message :=
  { Typ := .State, Peers := [env.pretty s.remote], NumPeers := sub.size }

/-- The effective fan-out cap of `handleJoin`: the local `w`. -/
def capOf (sub : subtree) (prio : Bool) : Int :=
  if prio then sub.treeMaxWidth else sub.treeWidth

/-- The block `if sub.in != nil { ... }` of `handleJoin`: the `State` report
to the parent, with the error of its `writeMessage` (`none` when the node has
no parent or the write succeeded). -/
def notifyParent (env : Env) (sub : subtree) (w : World) (s : Stream) : World × Option Err :=
  match sub.inp with
  | some parent => writeMessage env w parent (notifOf env sub s)
  | none => (w, none)

/-- The method `handleJoin`. -/
def handleJoin (env : Env) (sub : subtree) (w0 : World) (s : Stream) (prio : Bool) :
    World × subtree × Ret Unit :=
  let w := { w0 with trace := w0.trace ++ [Event.admission s prio] }
  if (sub.children.length : Int) ≥ capOf sub prio then
    -- `defer s.Close()` runs when `redirectJoin` returns or panics
    match redirectJoin env sub w s with
    | (w1, sub1, r) => (closeStream w1 s, sub1, r)
  else
    match writeMessage env w s (welcomeOf env sub) with
    | (w1, some e) => (closeStream w1 s, sub, .error e)
    | (w1, none) =>
      match notifyParent env sub w1 s with
      | (w2, some e) => (w2, sub, .error e)
      | (w2, none) =>
        let c : child := { s := s, id := s.remote }
        ({ w2 with trace := w2.trace ++ [Event.spawn c] },
         { sub with children := mapInsert c.id c sub.children }, .ok ())

/-- The method `joinNewPeer` (the node-wide lock is not modelled). -/
def joinNewPeer (env : Env) (sub : subtree) (w : World) (s : Stream) :
    World × subtree × Ret Unit :=
  handleJoin env sub w s false

/-- The method `Close`. It returns the error of `sub.in.Close()`, which is not
modelled: the result is nil. -/
def Close (env : Env) (sub : subtree) (w : World) : World × subtree × Ret Unit :=
  match sub.inp with
  | some parent =>
    match writeMessage env w parent { Typ := .Part } with
    | (w1, _) => (closeStream w1 parent, sub, .ok ())
  | none => (w, sub, .ok ())

/-- The function `newSubtree`: every field the composite literal does not
name has its zero value. -/
def newSubtree (h : PeerID) (id : String) : subtree :=
  { children := [], treeWidth := 0, treeMaxWidth := 0, size := 0,
    protoid := id, inp := none, h := h }

/-! ## Attachment -/

/-- The function `translPeerIDs`. -/
def translPeerIDs (env : Env) : List String → Except Err (List PeerID)
  | [] => .ok []
  | p :: ps =>
    match env.decode p with
    | none => .error (.decode p)
    | some pid =>
      match translPeerIDs env ps with
      | .error e => .error e
      | .ok parents => .ok (pid :: parents)

/-- The `for _, p := range parents` loop of `joinParents`, with `recur` for
the recursive call; `last` is `last_err`. `none` means that the recursive call did
not come back. -/
def joinParentsLoop (env : Env) (recur : World → Stream → Message → Option (World × Except Err Stream))
    (sub : subtree) (itors : Stream) :
    List PeerID → Option Err → World → Option (World × Except Err Stream)
  | [], last, w =>
    match last with
    | none => some (w, .error .noConnection)
    | some e => some (w, .error (.noConnectionAfter e))
  | p :: ps, last, w =>
    if p = itors.remote then some (w, .ok itors)
    else
      match newStream env sub.protoid w p with
      | (w1, .error e) => joinParentsLoop env recur sub itors ps (some e) w1
      | (w1, .ok pstr) =>
        match writeMessage env w1 pstr { Typ := .Join } with
        | (w2, some e) => joinParentsLoop env recur sub itors ps (some e) w2
        | (w2, none) =>
          match readMessage env w2 pstr with
          | (w3, .error e) => joinParentsLoop env recur sub itors ps (some e) w3
          | (w3, .ok welcome) =>
            match welcome.Typ with
            | .Update =>
              if welcome.Peers.length = 0 then some (w3, .error .emptyWelcome)
              else if ¬ (welcome.Peers.length = 1 ∧ welcome.Peers.head? = some (env.pretty p)) then
                match recur w3 pstr welcome with
                | none => none
                | some (w4, .error e) => joinParentsLoop env recur sub itors ps (some e) w4
                | some (w4, .ok rec_s) => some (closeStream w4 pstr, .ok rec_s)
              else some (w3, .ok pstr)
            | _ => joinParentsLoop env recur sub itors ps last w3

/-- The body of `joinParents`, with `recur` for the recursive call. -/
def joinParentsBody (env : Env) (recur : World → Stream → Message → Option (World × Except Err Stream))
    (sub : subtree) (w : World) (itors : Stream) (m : Message) :
    Option (World × Except Err Stream) :=
  match translPeerIDs env m.Peers with
  | .error e => some (w, .error e)
  | .ok parents =>
    if parents.length = 0 then some (w, .error .zeroParents)
    else joinParentsLoop env recur sub itors parents none w

/-- The method `joinParents`. The source does not bound the nesting of its
recursive calls; `fuel` does: a call with no fuel left does not come back
(`none`), and each nested call has one unit less. -/
def joinParents (env : Env) (sub : subtree) :
    Nat → World → Stream → Message → Option (World × Except Err Stream)
  | 0 => fun _ _ _ => none
  | fuel + 1 => joinParentsBody env (joinParents env sub fuel) sub

/-- The method `joinToPeer`. -/
def joinToPeer (env : Env) (fuel : Nat) (sub : subtree) (w : World) (s : Stream) :
    Option (World × subtree × Except Err Unit) :=
  match writeMessage env w s { Typ := .Join } with
  | (w1, some e) => some (w1, sub, .error e)
  | (w1, none) =>
    match readMessage env w1 s with
    | (w2, .error e) => some (w2, sub, .error e)
    | (w2, .ok m) =>
      let sub1 := { sub with treeWidth := m.TreeWidth, treeMaxWidth := m.TreeMaxWidth }
      match joinParents env sub1 fuel w2 s m with
      | none => none
      | some (w3, .error e) => some (w3, sub1, .error e)
      | some (w3, .ok ins) =>
        let w4 := if ins ≠ s then closeStream w3 s else w3
        some (w4, { sub1 with inp := some ins }, .ok ())

/-! ## Broadcast and repair -/

/-- The first loop of `forwardMessage`: the message is written to every
child; the children whose write failed are collected in `dead`. -/
def forwardWrites (env : Env) (m : Message) :
    List (PeerID × child) → World → World × List child
  | [], w => (w, [])
  | (_, c) :: rest, w =>
    match writeMessage env w c.s m with
    | (w1, some _) =>
      match forwardWrites env m rest w1 with
      | (w2, dead) => (w2, c :: dead)
    | (w1, none) => forwardWrites env m rest w1

/-- The loop `for _, child := range h.children` of `forwardMessage`. An error
of `handleJoin` is logged and the loop goes on; a panic leaves the loop. -/
def repairChildren (env : Env) : List String → subtree → World → World × subtree × Ret Unit
  | [], sub, w => (w, sub, .ok ())
  | ch :: rest, sub, w =>
    match env.decode ch with
    | none => repairChildren env rest sub w
    | some pid =>
      match newStream env sub.protoid w pid with
      | (w1, .error _) => repairChildren env rest sub w1
      | (w1, .ok cstr) =>
        match handleJoin env sub w1 cstr true with
        | (w2, sub2, .panic) => (w2, sub2, .panic)
        | (w2, sub2, _) => repairChildren env rest sub2 w2

/-- The loop `for _, h := range dead` of `forwardMessage`. -/
def repairDead (env : Env) : List child → subtree → World → World × subtree × Ret Unit
  | [], sub, w => (w, sub, .ok ())
  | hd :: rest, sub, w =>
    let sub1 := { sub with children := mapDelete hd.id sub.children }
    match repairChildren env hd.children sub1 w with
    | (w1, sub2, .panic) => (w1, sub2, .panic)
    | (w1, sub2, _) => repairDead env rest sub2 w1

/-- The method `forwardMessage` (the node-wide lock is not modelled). -/
def forwardMessage (env : Env) (sub : subtree) (w : World) (m : Message) :
    World × subtree × Ret Unit :=
  match forwardWrites env m sub.children w with
  | (w1, dead) => repairDead env dead sub w1

/-! ## Auxiliary notions used in the statements -/

/-- The last `State` message of a sequence of messages, if there is one. -/
def lastState (ms : List Message) : Option Message :=
  (ms.filter (fun m => decide (m.Typ = .State))).getLast?

/-- Two node states agree on every field other than `children`. -/
def Frame (a b : subtree) : Prop :=
  b.treeWidth = a.treeWidth ∧ b.treeMaxWidth = a.treeMaxWidth ∧ b.size = a.size
    ∧ b.protoid = a.protoid ∧ b.inp = a.inp ∧ b.h = a.h

/-- The operations of a node, as far as `subtree.go` defines them. `report k m`
is one iteration of the report loop of the child registered under `k`. -/
inductive Op
  | joinToPeer (fuel : Nat) (s : Stream)
  | joinNewPeer (s : Stream)
  | handleJoin (s : Stream) (prio : Bool)
  | redirectJoin (s : Stream)
  | forwardMessage (m : Message)
  | close
  | report (k : PeerID) (m : Message)
deriving DecidableEq, Repr

/-- The report loop of the child registered under `k` handles `m`. -/
def reportAt (sub : subtree) (k : PeerID) (m : Message) : subtree :=
  let f : PeerID × child → PeerID × child :=
    fun e => if e.1 = k then (e.1, handleChildMessage e.2 m) else e
  { sub with children := sub.children.map f }

/-- The state a call leaves behind when it returns (with or without an
error); a call that panics leaves none. -/
def afterCall {α : Type} : World × subtree × Ret α → Option (subtree × World)
  | (_, _, .panic) => none
  | (w, sub, _) => some (sub, w)

/-- One operation of the node. `none`: the call panics, or `joinParents` runs
out of fuel. -/
def step (env : Env) (st : subtree × World) : Op → Option (subtree × World)
  | .joinToPeer fuel s =>
    match joinToPeer env fuel st.1 st.2 s with
    | none => none
    | some (w, sub, _) => some (sub, w)
  | .joinNewPeer s => afterCall (joinNewPeer env st.1 st.2 s)
  | .handleJoin s prio => afterCall (handleJoin env st.1 st.2 s prio)
  | .redirectJoin s => afterCall (redirectJoin env st.1 st.2 s)
  | .forwardMessage m => afterCall (forwardMessage env st.1 st.2 m)
  | .close => afterCall (Close env st.1 st.2)
  | .report k m => some (reportAt st.1 k m, st.2)

/-- A sequence of operations, one after the other. -/
def run (env : Env) : List Op → subtree × World → Option (subtree × World)
  | [], st => some st
  | op :: ops, st =>
    match step env st op with
    | none => none
    | some st1 => run env ops st1

/-! ## Concrete collaborators for the worked examples -/

/-- A peer-identifier encoding for the examples: decimal digits. -/
def demoPretty (p : PeerID) : String := toString p

/-- Reads decimal digits, most significant first. -/
def decodeDigits : List Char → Nat → Option Nat
  | [], acc => some acc
  | c :: cs, acc =>
    if c.isDigit then decodeDigits cs (acc * 10 + (c.toNat - 48)) else none

/-- The decoder for `demoPretty`; fails on the empty string and on a string
that is not made of digits. -/
def demoDecode (s : String) : Option PeerID :=
  match s.data with
  | [] => none
  | cs => decodeDigits cs 0

/-- An environment in which every connection and every write succeeds and
every peer answers `Join` by accepting, with the given widths. -/
def acceptingEnv (tw tmw : Int) : Env :=
  { pretty := demoPretty, decode := demoDecode,
    dial := fun _ _ _ => none,
    send := fun _ _ _ => none,
    recv := fun _ s =>
      .ok { Typ := .Update, Peers := [demoPretty s.remote], TreeWidth := tw, TreeMaxWidth := tmw } }

/-- The empty history. -/
def World.init : World := { next := 0, trace := [] }

/-- A node with three children of recorded sizes 3, 1 and 4. -/
def threeChildren : subtree :=
  { children := [(5, { id := 5, s := { id := 1, remote := 5 }, size := 3 }),
                 (6, { id := 6, s := { id := 2, remote := 6 }, size := 1 }),
                 (8, { id := 8, s := { id := 3, remote := 8 }, size := 4 })],
    treeWidth := 3, treeMaxWidth := 5, size := 0, protoid := "pubsub",
    inp := none, h := 7 }

/-- A node whose only child has reported `NumPeers = 9999999999`, so that its
recorded size is `10000000000`. -/
def hugeChild : subtree :=
  { children := [(5, { id := 5, s := { id := 1, remote := 5 }, size := 10000000000 })],
    treeWidth := 1, treeMaxWidth := 1, size := 0, protoid := "pubsub",
    inp := none, h := 7 }

/-- The `State` messages among the messages written in a history. -/
def stateReports : List Event → List Message
  | [] => []
  | Event.write _ m _ :: rest =>
    if m.Typ = .State then m :: stateReports rest else stateReports rest
  | _ :: rest => stateReports rest

/-- An environment like `acceptingEnv`, in which the welcome read from the
stream with identity `0` carries the widths 2 and 2 and the welcome read from
any other stream carries the widths 0 and 0. -/
def shrinkingEnv : Env :=
  { pretty := demoPretty, decode := demoDecode,
    dial := fun _ _ _ => none,
    send := fun _ _ _ => none,
    recv := fun _ s =>
      .ok { Typ := .Update, Peers := [demoPretty s.remote],
            TreeWidth := if s.id = 0 then 2 else 0,
            TreeMaxWidth := if s.id = 0 then 2 else 0 } }

/-- The admissions (`handleJoin` calls) entered in a history, in order: the
requester stream and the priority flag of each. -/
def admissions : List Event → List (Stream × Bool)
  | [] => []
  | Event.admission s prio :: rest => (s, prio) :: admissions rest
  | _ :: rest => admissions rest

/-- The peers to which a connection was attempted in a history, in order. -/
def dialed : List Event → List PeerID
  | [] => []
  | Event.dial p _ :: rest => p :: dialed rest
  | _ :: rest => dialed rest

/-- The number of priority admissions entered in a history. -/
def priorityAdmissions (evs : List Event) : Nat :=
  ((admissions evs).filter (fun a => a.2)).length

/-- A node without children that is attached to a parent, with widths 2 and 4
(the state of a fresh node after `joinToPeer`). -/
def attachedNode : subtree :=
  { children := [], treeWidth := 2, treeMaxWidth := 4, size := 0, protoid := "pubsub",
    inp := some { id := 0, remote := 1 }, h := 7 }

/-- The state of `attachedNode` after it admitted the peers 5 and 6. -/
def attachedNodeAfter : subtree × World :=
  ({ attachedNode with
       children := [(5, { id := 5, s := { id := 1, remote := 5 } }),
                    (6, { id := 6, s := { id := 2, remote := 6 } })] },
   { next := 0,
     trace := [Event.admission { id := 1, remote := 5 } false,
       Event.write { id := 1, remote := 5 }
         { Typ := .Update, Peers := ["7"], TreeWidth := 2, TreeMaxWidth := 4 } none,
       Event.write { id := 0, remote := 1 }
         { Typ := .State, Peers := ["5"], NumPeers := 0 } none,
       Event.spawn { id := 5, s := { id := 1, remote := 5 } },
       Event.admission { id := 2, remote := 6 } false,
       Event.write { id := 2, remote := 6 }
         { Typ := .Update, Peers := ["7"], TreeWidth := 2, TreeMaxWidth := 4 } none,
       Event.write { id := 0, remote := 1 }
         { Typ := .State, Peers := ["6"], NumPeers := 0 } none,
       Event.spawn { id := 6, s := { id := 2, remote := 6 } }] })

/-- The state of a fresh node (`newSubtree 7 "pubsub"`) after it attached to
peer 1 through the stream `0` (widths 2 and 4) and admitted peer 5. -/
def freshNodeAfter : subtree × World :=
  ({ children := [(5, { id := 5, s := { id := 1, remote := 5 } })],
     treeWidth := 2, treeMaxWidth := 4, size := 0, protoid := "pubsub",
     inp := some { id := 0, remote := 1 }, h := 7 },
   { next := 2,
     trace := [Event.write { id := 0, remote := 1 } { Typ := .Join } none,
       Event.read { id := 0, remote := 1 }
         (.ok { Typ := .Update, Peers := ["1"], TreeWidth := 2, TreeMaxWidth := 4 }),
       Event.admission { id := 1, remote := 5 } false,
       Event.write { id := 1, remote := 5 }
         { Typ := .Update, Peers := ["7"], TreeWidth := 2, TreeMaxWidth := 4 } none,
       Event.write { id := 0, remote := 1 }
         { Typ := .State, Peers := ["5"], NumPeers := 0 } none,
       Event.spawn { id := 5, s := { id := 1, remote := 5 } }] })

/-- The state in which `joinToPeer` leaves a fresh node in `chainEnv` when it
is given the stream `0` to peer 1: attached through the stream `2` to peer 3,
the streams `1` (to peer 2) and `0` (to peer 1) closed. -/
def chainAfter : World × subtree × Except Err Unit :=
  ({ next := 3,
     trace := [Event.write { id := 0, remote := 1 } { Typ := .Join } none,
       Event.read { id := 0, remote := 1 }
         (.ok { Typ := .Update, Peers := ["2"], TreeWidth := 2, TreeMaxWidth := 4 }),
       Event.dial 2 (.ok { id := 1, remote := 2 }),
       Event.write { id := 1, remote := 2 } { Typ := .Join } none,
       Event.read { id := 1, remote := 2 }
         (.ok { Typ := .Update, Peers := ["3"], TreeWidth := 2, TreeMaxWidth := 4 }),
       Event.dial 3 (.ok { id := 2, remote := 3 }),
       Event.write { id := 2, remote := 3 } { Typ := .Join } none,
       Event.read { id := 2, remote := 3 }
         (.ok { Typ := .Update, Peers := ["3"], TreeWidth := 2, TreeMaxWidth := 4 }),
       Event.close { id := 1, remote := 2 },
       Event.close { id := 0, remote := 1 }] },
   { children := [], treeWidth := 2, treeMaxWidth := 4, size := 0, protoid := "pubsub",
     inp := some { id := 2, remote := 3 }, h := 7 },
   .ok ())

/-- An environment in which every connection succeeds, every peer accepts
directly with the given widths, and every write succeeds except that a message
other than an `Update` written to the stream with identity `1` fails. -/
def brokenLinkEnv (tw tmw : Int) : Env :=
  { pretty := demoPretty, decode := demoDecode,
    dial := fun _ _ _ => none,
    send := fun _ s m =>
      if s.id = 1 then
        match m.Typ with
        | .Update => none
        | _ => some (.transport 1)
      else none,
    recv := fun _ s =>
      .ok { Typ := .Update, Peers := [demoPretty s.remote], TreeWidth := tw, TreeMaxWidth := tmw } }

/-- Scenario of a repair that meets a full node. Step 1: a fresh node attached
to peer 1 through a welcome that carries `TreeWidth = 2`, `TreeMaxWidth = 1`. -/
def repairSt1 : subtree × World :=
  ({ children := [], treeWidth := 2, treeMaxWidth := 1, size := 0, protoid := "pubsub",
     inp := some { id := 0, remote := 1 }, h := 7 },
   { next := 3,
     trace := [Event.write { id := 0, remote := 1 } { Typ := .Join } none,
       Event.read { id := 0, remote := 1 }
         (.ok { Typ := .Update, Peers := ["1"], TreeWidth := 2, TreeMaxWidth := 1 })] })

/-- Step 2: peer 5 (`X`) was admitted through the stream `1`. -/
def repairSt2 : subtree × World :=
  ({ repairSt1.1 with children := [(5, { id := 5, s := { id := 1, remote := 5 } })] },
   { next := 3,
     trace := repairSt1.2.trace ++
      [Event.admission { id := 1, remote := 5 } false,
       Event.write { id := 1, remote := 5 }
         { Typ := .Update, Peers := ["7"], TreeWidth := 2, TreeMaxWidth := 1 } none,
       Event.write { id := 0, remote := 1 } { Typ := .State, Peers := ["5"] } none,
       Event.spawn { id := 5, s := { id := 1, remote := 5 } }] })

/-- Step 3: peer 6 (`Y`) was admitted through the stream `2`. -/
def repairSt3 : subtree × World :=
  ({ repairSt1.1 with
       children := [(5, { id := 5, s := { id := 1, remote := 5 } }),
                    (6, { id := 6, s := { id := 2, remote := 6 } })] },
   { next := 3,
     trace := repairSt2.2.trace ++
      [Event.admission { id := 2, remote := 6 } false,
       Event.write { id := 2, remote := 6 }
         { Typ := .Update, Peers := ["7"], TreeWidth := 2, TreeMaxWidth := 1 } none,
       Event.write { id := 0, remote := 1 } { Typ := .State, Peers := ["6"] } none,
       Event.spawn { id := 6, s := { id := 2, remote := 6 } }] })

/-- Step 4: `X` reported one child, peer 8. -/
def repairSt4 : subtree × World :=
  ({ repairSt1.1 with
       children := [(5, { id := 5, s := { id := 1, remote := 5 }, size := 2, children := ["8"] }),
                    (6, { id := 6, s := { id := 2, remote := 6 } })] },
   repairSt3.2)

/-- Step 5: `Y` reported `NumPeers = 9999999999`. -/
def repairSt5 : subtree × World :=
  ({ repairSt1.1 with
       children := [(5, { id := 5, s := { id := 1, remote := 5 }, size := 2, children := ["8"] }),
                    (6, { id := 6, s := { id := 2, remote := 6 }, size := 10000000000 })] },
   repairSt3.2)

/-- The node of the repair example of the specification: children `X` (peer
5) and `Y` (peer 6), `X` has reported the grandchildren 8 and 9; `treeWidth` is
2 and `treeMaxWidth` is 4. -/
def twoChildren : subtree :=
  { children := [(5, { id := 5, s := { id := 1, remote := 5 }, size := 3,
                       children := ["8", "9"] }),
                 (6, { id := 6, s := { id := 2, remote := 6 } })],
    treeWidth := 2, treeMaxWidth := 4, size := 0, protoid := "pubsub",
    inp := some { id := 0, remote := 1 }, h := 7 }

/-- The read `m[k]` of a Go map (`none` when the key is absent). -/
def mapLookup (k : PeerID) : List (PeerID × child) → Option child
  | [] => none
  | (k1, c1) :: rest => if k1 = k then some c1 else mapLookup k rest

/-- The entries of a children map without what the report loops record: the
key, the identifier and the stream of each child. -/
def skeleton (m : List (PeerID × child)) : List (PeerID × PeerID × Stream) :=
  m.map (fun e => (e.1, e.2.id, e.2.s))

/-- The children of `l` whose write ended with an error, `results` being the
outcomes of the writes in the order of `l`: the slice `dead` of
`forwardMessage`. -/
def deadOf : List (PeerID × child) → List (Option Err) → List child
  | (_, c) :: rest, some _ :: rs => c :: deadOf rest rs
  | _ :: rest, none :: rs => deadOf rest rs
  | _, _ => []

/-- The writes of the message `m` to the children of `l`, with the outcomes
`results`. -/
def broadcastWrites (m : Message) : List (PeerID × child) → List (Option Err) → List Event
  | (_, c) :: rest, r :: rs => Event.write c.s m r :: broadcastWrites m rest rs
  | _, _ => []

/-- The peers the repair of the dead children `dead` tries to reach: for each
dead child in order, the identifiers of its last-reported children list that
decode. -/
def repairTargets (env : Env) : List child → List PeerID
  | [] => []
  | d :: rest => d.children.filterMap env.decode ++ repairTargets env rest

/-- The streams opened (successful `NewStream`) in a history, in order. -/
def openedStreams : List Event → List Stream
  | [] => []
  | Event.dial _ (.ok s) :: rest => s :: openedStreams rest
  | _ :: rest => openedStreams rest

/-- The streams closed in a history, in order. -/
def closedStreams : List Event → List Stream
  | [] => []
  | Event.close s :: rest => s :: closedStreams rest
  | _ :: rest => closedStreams rest

/-- The streams that successive successful `NewStream` calls to the peers
`ps` return when the next fresh stream identity is `n`. -/
def streamsFrom (n : Nat) : List PeerID → List Stream
  | [] => []
  | p :: ps => { id := n, remote := p } :: streamsFrom (n + 1) ps

/-- Peer `p` answers every `Join` with an `Update` naming exactly `q`. -/
def Names (env : Env) (p q : PeerID) : Prop :=
  ∀ (h : List Event) (s : Stream), s.remote = p →
    ∃ m, env.recv h s = .ok m ∧ m.Typ = .Update ∧ m.Peers = [env.pretty q]

/-- A redirect chain `p0 → p1 → ... → pn`: each peer but the last names its
successor, the last names itself. -/
def RedirectChain (env : Env) : List PeerID → Prop
  | [] => True
  | [p] => Names env p p
  | p :: q :: rest => Names env p q ∧ RedirectChain env (q :: rest)

/-- The 3-hop chain A → B → C with A = 1, B = 2, C = 3: peer 1 names 2, peer 2
names 3 and every other peer names 3; every connection and write succeeds. -/
def chainEnv : Env :=
  { pretty := demoPretty, decode := demoDecode,
    dial := fun _ _ _ => none,
    send := fun _ _ _ => none,
    recv := fun _ s =>
      .ok { Typ := .Update, Peers := [demoPretty (if s.remote = 1 then 2 else 3)],
            TreeWidth := 2, TreeMaxWidth := 4 } }

/-- Candidate `p` of the loop of `joinParents`, tried in world `w`, fails and
leaves world `w1`: by a connection failure, by a send failure, by a read
failure, by a reply that is not an `Update`, or by an `Update` with a
non-empty peer list other than `[p]` whose own resolution (`recur`) returns an
error. -/
inductive CandidateFails (env : Env)
    (recur : World → Stream → Message → Option (World × Except Err Stream))
    (sub : subtree) (p : PeerID) : World → World → Prop
  | connect (w w1 : World) (e : Err) :
      newStream env sub.protoid w p = (w1, .error e) →
      CandidateFails env recur sub p w w1
  | send (w w1 w2 : World) (pstr : Stream) (e : Err) :
      newStream env sub.protoid w p = (w1, .ok pstr) →
      writeMessage env w1 pstr { Typ := .Join } = (w2, some e) →
      CandidateFails env recur sub p w w2
  | read (w w1 w2 w3 : World) (pstr : Stream) (e : Err) :
      newStream env sub.protoid w p = (w1, .ok pstr) →
      writeMessage env w1 pstr { Typ := .Join } = (w2, none) →
      readMessage env w2 pstr = (w3, .error e) →
      CandidateFails env recur sub p w w3
  | reply (w w1 w2 w3 : World) (pstr : Stream) (welcome : Message) :
      newStream env sub.protoid w p = (w1, .ok pstr) →
      writeMessage env w1 pstr { Typ := .Join } = (w2, none) →
      readMessage env w2 pstr = (w3, .ok welcome) →
      welcome.Typ ≠ .Update →
      CandidateFails env recur sub p w w3
  | resolution (w w1 w2 w3 w4 : World) (pstr : Stream) (welcome : Message) (e : Err) :
      newStream env sub.protoid w p = (w1, .ok pstr) →
      writeMessage env w1 pstr { Typ := .Join } = (w2, none) →
      readMessage env w2 pstr = (w3, .ok welcome) →
      welcome.Typ = .Update →
      welcome.Peers ≠ [] →
      welcome.Peers ≠ [env.pretty p] →
      recur w3 pstr welcome = some (w4, .error e) →
      CandidateFails env recur sub p w w4

/-- Every candidate of the list is not the introducer and fails, one after
the other, from world `w` to world `w1`. -/
inductive AllFail (env : Env)
    (recur : World → Stream → Message → Option (World × Except Err Stream))
    (sub : subtree) (itors : Stream) : List PeerID → World → World → Prop
  | nil (w : World) : AllFail env recur sub itors [] w w
  | cons (p : PeerID) (ps : List PeerID) (w w1 w2 : World) :
      p ≠ itors.remote →
      CandidateFails env recur sub p w w1 →
      AllFail env recur sub itors ps w1 w2 →
      AllFail env recur sub itors (p :: ps) w w2

/-- Candidate `c`, tried in world `w`, is reached and answers `Join` with
`welcome`: the connection and the send succeed and `welcome` is read. -/
def Answers (env : Env) (sub : subtree) (w : World) (c : PeerID) (welcome : Message) : Prop :=
  env.dial w.trace sub.protoid c = none
  ∧ env.send (w.trace ++ [Event.dial c (.ok { id := w.next, remote := c })])
      { id := w.next, remote := c } { Typ := .Join } = none
  ∧ env.recv (w.trace ++ [Event.dial c (.ok { id := w.next, remote := c }),
      Event.write { id := w.next, remote := c } { Typ := .Join } none])
      { id := w.next, remote := c } = .ok welcome

/-- The world after candidate `c`, tried in world `w`, answered `welcome`. -/
def afterAnswer (w : World) (c : PeerID) (welcome : Message) : World :=
  { next := w.next + 1,
    trace := w.trace ++ [Event.dial c (.ok { id := w.next, remote := c }),
      Event.write { id := w.next, remote := c } { Typ := .Join } none,
      Event.read { id := w.next, remote := c } (.ok welcome)] }

/-- An environment in which peer 1 answers `Join` with an `Update` whose peer
list is empty and every other peer accepts directly. -/
def emptyUpdateEnv : Env :=
  { pretty := demoPretty, decode := demoDecode,
    dial := fun _ _ _ => none,
    send := fun _ _ _ => none,
    recv := fun _ s =>
      .ok { Typ := .Update, Peers := if s.remote = 1 then [] else [demoPretty s.remote],
            TreeWidth := 2, TreeMaxWidth := 4 } }

/-- An environment in which no connection to peer 1 can be opened and every
other peer accepts directly. -/
def unreachableEnv : Env :=
  { pretty := demoPretty, decode := demoDecode,
    dial := fun _ _ p => if p = 1 then some (.transport 1) else none,
    send := fun _ _ _ => none,
    recv := fun _ s =>
      .ok { Typ := .Update, Peers := [demoPretty s.remote], TreeWidth := 2, TreeMaxWidth := 4 } }

/-- An environment in which no connection to peer 1 can be opened, peer 2
answers `Join` by redirecting to peer 3, and every other peer accepts
directly. -/
def redirectingEnv : Env :=
  { pretty := demoPretty, decode := demoDecode,
    dial := fun _ _ p => if p = 1 then some (.transport 1) else none,
    send := fun _ _ _ => none,
    recv := fun _ s =>
      .ok { Typ := .Update, Peers := [demoPretty (if s.remote = 2 then 3 else s.remote)],
            TreeWidth := 2, TreeMaxWidth := 4 } }

/-! # Theorems -/

/-! ## The child report loop -/

theorem wrapInt_of_isInt (x : Int) (h : IsInt x) : wrapInt x = x := by
  unfold IsInt minInt maxInt at h
  unfold wrapInt
  have h1 : (0 : Int) ≤ x + 2 ^ 63 := by omega
  have h2 : x + 2 ^ 63 < 2 ^ 64 := by omega
  rw [Int.emod_eq_of_lt h1 h2]
  omega

theorem handleChildMessage_state (c : child) (m : Message) (h : m.Typ = .State) :
    handleChildMessage c m = { c with size := wrapInt (m.NumPeers + 1), children := m.Peers } := by
  simp [handleChildMessage, h]

theorem handleChildMessage_other (c : child) (m : Message) (h : m.Typ ≠ .State) :
    handleChildMessage c m = c := by
  unfold handleChildMessage
  split
  · next h1 => exact absurd h1 h
  · rfl
  · rfl

theorem handleChildMessages_snoc (c : child) (ms : List Message) (m : Message) :
    handleChildMessages c (ms ++ [m]) = handleChildMessage (handleChildMessages c ms) m := by
  simp [handleChildMessages, List.foldl_append]

theorem lastState_snoc (ms : List Message) (m : Message) :
    lastState (ms ++ [m]) = if m.Typ = .State then some m else lastState ms := by
  unfold lastState
  by_cases h : m.Typ = .State
  · simp [List.filter_append, h]
  · simp [List.filter_append, h]

theorem report_loop_last (c : child) (ms : List Message) :
    handleChildMessages c ms =
      match lastState ms with
      | some l => { c with size := wrapInt (l.NumPeers + 1), children := l.Peers }
      | none => c := by
  induction ms using List.reverseRecOn with
  | nil => simp [handleChildMessages, lastState]
  | append_singleton ms m ih =>
    rw [handleChildMessages_snoc, lastState_snoc]
    by_cases h : m.Typ = .State
    · rw [handleChildMessage_state _ _ h, if_pos h]
      rw [ih]
      cases lastState ms <;> rfl
    · rw [handleChildMessage_other _ _ h, if_neg h]
      exact ih

/-- C10 (child report loop). For every child `c` and received message `m`,
one iteration of the loop of `handleChildMessages` sets the recorded size to
`m.NumPeers + 1` (the Go expression on `int`, which is the integer
`m.NumPeers + 1` whenever that is an `int`) and the recorded children list to
`m.Peers` when `m.Type` is `State`, and leaves both unchanged when it is
`Part` or any other type; the identifier and the stream never change. After
any finite sequence of messages the recorded size and children list are those
of the last `State` message of the sequence, or the initial ones if there was
none. -/
theorem child_report_loop (c : child) (m : Message) (ms : List Message) :
    (handleChildMessage c m).size
        = (if m.Typ = .State then wrapInt (m.NumPeers + 1) else c.size)
    ∧ wrapInt (m.NumPeers + 1)
        = (if IsInt (m.NumPeers + 1) then m.NumPeers + 1 else wrapInt (m.NumPeers + 1))
    ∧ (handleChildMessage c m).children
        = (if m.Typ = .State then m.Peers else c.children)
    ∧ (handleChildMessage c m).id = c.id
    ∧ (handleChildMessage c m).s = c.s
    ∧ (handleChildMessages c ms).id = c.id
    ∧ (handleChildMessages c ms).s = c.s
    ∧ (handleChildMessages c ms).size
        = (match lastState ms with
           | some l => wrapInt (l.NumPeers + 1)
           | none => c.size)
    ∧ (handleChildMessages c ms).children
        = (match lastState ms with
           | some l => l.Peers
           | none => c.children) := by
  have hl := report_loop_last c ms
  refine ⟨?_, ?_, ?_, ?_, ?_, ?_, ?_, ?_, ?_⟩
  · by_cases h : m.Typ = .State
    · simp [handleChildMessage_state _ _ h, h]
    · simp [handleChildMessage_other _ _ h, h]
  · by_cases h : IsInt (m.NumPeers + 1)
    · rw [if_pos h, wrapInt_of_isInt _ h]
    · rw [if_neg h]
  · by_cases h : m.Typ = .State
    · simp [handleChildMessage_state _ _ h, h]
    · simp [handleChildMessage_other _ _ h, h]
  · by_cases h : m.Typ = .State
    · simp [handleChildMessage_state _ _ h]
    · simp [handleChildMessage_other _ _ h]
  · by_cases h : m.Typ = .State
    · simp [handleChildMessage_state _ _ h]
    · simp [handleChildMessage_other _ _ h]
  · rw [hl]; cases lastState ms <;> rfl
  · rw [hl]; cases lastState ms <;> rfl
  · rw [hl]; cases lastState ms <;> rfl
  · rw [hl]; cases lastState ms <;> rfl

/-! ## Empty-candidate rejection -/

/-- C9 (empty-candidate rejection): for every introducing stream and every
welcome message with an empty `Peers` list, `joinParents` (with any fuel to
run at all) returns the error "received zero parents from initiator" and no
stream, and the world is the one it started from: no connection was opened and
no message was written. -/
theorem joinParents_empty_welcome (env : Env) (sub : subtree) (fuel : Nat) (w : World)
    (itors : Stream) (m : Message) (h : m.Peers = []) :
    joinParents env sub (fuel + 1) w itors m = some (w, .error .zeroParents) := by
  have hdecode : translPeerIDs env m.Peers = .ok [] := by
    rw [h]
    rfl
  show joinParentsBody env (joinParents env sub fuel) sub w itors m = _
  unfold joinParentsBody
  rw [hdecode]
  rfl

/-- C9 at a concrete welcome. -/
theorem joinParents_empty_welcome_witness :
    ({ Typ := .Update } : Message).Peers = []
    ∧ joinParents (acceptingEnv 2 4) (newSubtree 7 "pubsub") (0 + 1) World.init
        { id := 0, remote := 1 } { Typ := .Update }
      = some (World.init, .error .zeroParents) :=
  ⟨rfl, joinParents_empty_welcome _ _ _ _ _ _ rfl⟩

/-! ## Projections of a history -/

theorem stateReports_append (a b : List Event) :
    stateReports (a ++ b) = stateReports a ++ stateReports b := by
  induction a with
  | nil => rfl
  | cons e rest ih =>
    cases e with
    | write s m r =>
      by_cases h : m.Typ = .State
      · simp [stateReports, h, ih]
      · simp [stateReports, h, ih]
    | _ => simpa [stateReports] using ih

theorem openedStreams_append (a b : List Event) :
    openedStreams (a ++ b) = openedStreams a ++ openedStreams b := by
  induction a with
  | nil => rfl
  | cons e rest ih =>
    cases e with
    | dial p r =>
      cases r with
      | ok s => simp [openedStreams, ih]
      | error e => simp [openedStreams, ih]
    | _ => simpa [openedStreams] using ih

theorem closedStreams_append (a b : List Event) :
    closedStreams (a ++ b) = closedStreams a ++ closedStreams b := by
  induction a with
  | nil => rfl
  | cons e rest ih =>
    cases e with
    | close s => simp [closedStreams, ih]
    | _ => simpa [closedStreams] using ih

theorem admissions_append (a b : List Event) :
    admissions (a ++ b) = admissions a ++ admissions b := by
  induction a with
  | nil => rfl
  | cons e rest ih =>
    cases e with
    | admission s prio => simp [admissions, ih]
    | _ => simpa [admissions] using ih

theorem dialed_append (a b : List Event) : dialed (a ++ b) = dialed a ++ dialed b := by
  induction a with
  | nil => rfl
  | cons e rest ih =>
    cases e with
    | dial p r => simp [dialed, ih]
    | _ => simpa [dialed] using ih

theorem priorityAdmissions_append (a b : List Event) :
    priorityAdmissions (a ++ b) = priorityAdmissions a + priorityAdmissions b := by
  simp [priorityAdmissions, admissions_append]

/-! ## What admission, redirect and repair leave unchanged -/

theorem Frame.refl (a : subtree) : Frame a a := ⟨rfl, rfl, rfl, rfl, rfl, rfl⟩

theorem Frame.trans {a b c : subtree} (h1 : Frame a b) (h2 : Frame b c) : Frame a c := by
  obtain ⟨a1, a2, a3, a4, a5, a6⟩ := h1
  obtain ⟨b1, b2, b3, b4, b5, b6⟩ := h2
  exact ⟨b1.trans a1, b2.trans a2, b3.trans a3, b4.trans a4, b5.trans a5, b6.trans a6⟩

theorem Frame.children (a : subtree) (ch : List (PeerID × child)) :
    Frame a { a with children := ch } := ⟨rfl, rfl, rfl, rfl, rfl, rfl⟩

theorem redirectJoin_frame (env : Env) (sub : subtree) (w : World) (s : Stream) :
    Frame sub (redirectJoin env sub w s).2.1 := by
  unfold redirectJoin
  split
  · exact Frame.refl _
  · split
    · exact Frame.refl _
    · split
      · exact Frame.refl _
      · simp only []
        split <;> exact Frame.children _ _

theorem handleJoin_frame (env : Env) (sub : subtree) (w : World) (s : Stream) (prio : Bool) :
    Frame sub (handleJoin env sub w s prio).2.1 := by
  unfold handleJoin
  simp only []
  split
  · exact redirectJoin_frame _ _ _ _
  · split
    · exact Frame.refl _
    · split
      · exact Frame.refl _
      · exact Frame.children _ _

theorem repairChildren_frame (env : Env) (cs : List String) (sub : subtree) (w : World) :
    Frame sub (repairChildren env cs sub w).2.1 := by
  induction cs generalizing sub w with
  | nil => exact Frame.refl _
  | cons ch rest ih =>
    unfold repairChildren
    split
    · exact ih sub w
    · split
      · exact ih sub _
      · next w1 cstr _ =>
        have hj := handleJoin_frame env sub w1 cstr true
        split
        · next w2 sub2 heq => rw [heq] at hj; exact hj
        · next w2 sub2 r _ heq =>
          rw [heq] at hj
          exact Frame.trans hj (ih sub2 w2)

theorem repairDead_frame (env : Env) (dead : List child) (sub : subtree) (w : World) :
    Frame sub (repairDead env dead sub w).2.1 := by
  induction dead generalizing sub w with
  | nil => exact Frame.refl _
  | cons hd rest ih =>
    unfold repairDead
    simp only []
    have hc := repairChildren_frame env hd.children
      { sub with children := mapDelete hd.id sub.children } w
    split
    · next w1 sub2 heq => rw [heq] at hc; exact Frame.trans (Frame.children _ _) hc
    · next w1 sub2 r _ heq =>
      rw [heq] at hc
      exact Frame.trans (Frame.trans (Frame.children _ _) hc) (ih sub2 w1)

theorem forwardMessage_frame (env : Env) (sub : subtree) (w : World) (m : Message) :
    Frame sub (forwardMessage env sub w m).2.1 := by
  unfold forwardMessage
  exact repairDead_frame env _ sub _

/-! ## Events and children of admission and redirect -/

theorem bumpSize_skeleton (l : List (PeerID × child)) (i : Nat) :
    skeleton (bumpSize l i) = skeleton l := by
  induction l generalizing i with
  | nil => rfl
  | cons hd rest ih =>
    obtain ⟨k, c⟩ := hd
    cases i with
    | zero => simp [bumpSize, skeleton]
    | succ j =>
      have := ih j
      simp only [skeleton] at this
      simp [bumpSize, skeleton, this]

theorem skeleton_length (m : List (PeerID × child)) : (skeleton m).length = m.length := by
  simp [skeleton]

theorem mapInsert_length (k : PeerID) (c : child) (m : List (PeerID × child)) :
    (mapInsert k c m).length ≤ m.length + 1 := by
  induction m with
  | nil => simp [mapInsert]
  | cons hd rest ih =>
    obtain ⟨k1, c1⟩ := hd
    by_cases h : k1 = k
    · simp [mapInsert, h]
    · simp only [mapInsert, h, if_false, List.length_cons]
      omega

theorem mapDelete_length (k : PeerID) (m : List (PeerID × child)) :
    (mapDelete k m).length ≤ m.length := by
  unfold mapDelete
  exact List.length_filter_le _ _

/-- What `redirectJoin` does to the world and to the children map: it opens no
stream, enters no admission, and changes at most a recorded size. -/
theorem redirectJoin_events (env : Env) (sub : subtree) (w : World) (s : Stream) :
    (∃ evs, (redirectJoin env sub w s).1.trace = w.trace ++ evs
      ∧ admissions evs = [] ∧ openedStreams evs = [] ∧ dialed evs = [])
    ∧ (redirectJoin env sub w s).1.next = w.next
    ∧ skeleton (redirectJoin env sub w s).2.1.children = skeleton sub.children := by
  unfold redirectJoin
  split
  · exact ⟨⟨[], by simp, rfl, rfl, rfl⟩, rfl, rfl⟩
  · split
    · exact ⟨⟨[], by simp, rfl, rfl, rfl⟩, rfl, rfl⟩
    · split
      · exact ⟨⟨[], by simp, rfl, rfl, rfl⟩, rfl, rfl⟩
      · next i k minc _ =>
        simp only [writeMessage]
        cases hsend : env.send w.trace s (redirOf env sub minc) with
        | some e =>
          exact ⟨⟨[Event.write s (redirOf env sub minc) (some e)], rfl, rfl, rfl, rfl⟩, rfl,
            bumpSize_skeleton _ _⟩
        | none =>
          exact ⟨⟨[Event.write s (redirOf env sub minc) none, Event.close s],
            by simp [closeStream], rfl, rfl, rfl⟩, rfl, bumpSize_skeleton _ _⟩

/-- What `handleJoin` does to the world: exactly one admission is entered, no
stream is opened. -/
theorem handleJoin_events (env : Env) (sub : subtree) (w : World) (s : Stream) (prio : Bool) :
    (∃ evs, (handleJoin env sub w s prio).1.trace = w.trace ++ evs
      ∧ admissions evs = [(s, prio)] ∧ openedStreams evs = [] ∧ dialed evs = [])
    ∧ (handleJoin env sub w s prio).1.next = w.next := by
  unfold handleJoin
  simp only []
  split
  · obtain ⟨⟨evs, h1, h2, h3, h4⟩, h5, _⟩ := redirectJoin_events env sub
      { w with trace := w.trace ++ [Event.admission s prio] } s
    refine ⟨⟨[Event.admission s prio] ++ evs ++ [Event.close s], ?_, ?_, ?_, ?_⟩, ?_⟩
    · simp [closeStream, h1]
    · simp [admissions_append, h2, admissions]
    · simp [openedStreams_append, h3, openedStreams]
    · simp [dialed_append, h4, dialed]
    · simpa [closeStream] using h5
  · simp only [writeMessage]
    cases hsend : env.send (w.trace ++ [Event.admission s prio]) s (welcomeOf env sub) with
    | some e =>
      exact ⟨⟨[Event.admission s prio, Event.write s (welcomeOf env sub) (some e),
        Event.close s], by simp [closeStream], rfl, rfl, rfl⟩, rfl⟩
    | none =>
      cases hp : sub.inp with
      | none =>
        exact ⟨⟨[Event.admission s prio, Event.write s (welcomeOf env sub) none,
          Event.spawn { id := s.remote, s := s }], by simp [notifyParent, hp],
          rfl, rfl, rfl⟩, by simp [notifyParent, hp]⟩
      | some parent =>
        simp only [notifyParent, hp, writeMessage]
        cases hsend2 : env.send (w.trace ++ [Event.admission s prio]
            ++ [Event.write s (welcomeOf env sub) none]) parent (notifOf env sub s) with
        | some e =>
          exact ⟨⟨[Event.admission s prio, Event.write s (welcomeOf env sub) none,
            Event.write parent (notifOf env sub s) (some e)], by simp, rfl, rfl, rfl⟩, rfl⟩
        | none =>
          exact ⟨⟨[Event.admission s prio, Event.write s (welcomeOf env sub) none,
            Event.write parent (notifOf env sub s) none,
            Event.spawn { id := s.remote, s := s }], by simp, rfl, rfl, rfl⟩, rfl⟩

/-- What `handleJoin` does to the children map: either it changes at most a
recorded size, or the node was below the cap and the requester is
registered. -/
theorem handleJoin_children (env : Env) (sub : subtree) (w : World) (s : Stream) (prio : Bool) :
    skeleton (handleJoin env sub w s prio).2.1.children = skeleton sub.children
    ∨ ((sub.children.length : Int) < capOf sub prio
        ∧ (handleJoin env sub w s prio).2.1.children
            = mapInsert s.remote { id := s.remote, s := s } sub.children) := by
  unfold handleJoin
  simp only []
  split
  · left
    exact (redirectJoin_events env sub _ s).2.2
  · next hcap =>
    split
    · left; rfl
    · split
      · left; rfl
      · right
        exact ⟨by omega, rfl⟩

/-! ## The `size` field -/

theorem afterCall_some {α : Type} (r : World × subtree × Ret α) (st : subtree × World)
    (h : afterCall r = some st) : st = (r.2.1, r.1) := by
  obtain ⟨w, sub, ret⟩ := r
  cases ret <;> simp [afterCall] at h <;> simp [h]

theorem joinToPeer_size (env : Env) (fuel : Nat) (sub : subtree) (w : World) (s : Stream)
    (r : World × subtree × Except Err Unit) (h : joinToPeer env fuel sub w s = some r) :
    r.2.1.size = sub.size ∧ r.2.1.children = sub.children := by
  unfold joinToPeer at h
  split at h
  · cases h; exact ⟨rfl, rfl⟩
  · split at h
    · cases h; exact ⟨rfl, rfl⟩
    · simp only [] at h
      split at h
      · cases h
      · cases h; exact ⟨rfl, rfl⟩
      · cases h; exact ⟨rfl, rfl⟩

theorem Close_eq (env : Env) (sub : subtree) (w : World) : (Close env sub w).2.1 = sub := by
  unfold Close
  split <;> rfl

theorem step_size (env : Env) (st st1 : subtree × World) (op : Op)
    (h : step env st op = some st1) : st1.1.size = st.1.size := by
  cases op with
  | joinToPeer fuel s =>
    simp only [step] at h
    split at h
    · cases h
    · next w sub r heq =>
      cases h
      exact (joinToPeer_size env fuel st.1 st.2 s _ heq).1
  | joinNewPeer s =>
    have := afterCall_some _ _ h
    rw [this]
    exact (handleJoin_frame env st.1 st.2 s false).2.2.1
  | handleJoin s prio =>
    have := afterCall_some _ _ h
    rw [this]
    exact (handleJoin_frame env st.1 st.2 s prio).2.2.1
  | redirectJoin s =>
    have := afterCall_some _ _ h
    rw [this]
    exact (redirectJoin_frame env st.1 st.2 s).2.2.1
  | forwardMessage m =>
    have := afterCall_some _ _ h
    rw [this]
    exact (forwardMessage_frame env st.1 st.2 m).2.2.1
  | close =>
    have := afterCall_some _ _ h
    rw [this]
    simp only [Close_eq]
  | report k m =>
    simp only [step] at h
    cases h
    rfl

theorem run_size (env : Env) (ops : List Op) (st st1 : subtree × World)
    (h : run env ops st = some st1) : st1.1.size = st.1.size := by
  induction ops generalizing st with
  | nil => simp only [run] at h; cases h; rfl
  | cons op ops ih =>
    simp only [run] at h
    split at h
    · cases h
    · next st2 heq => rw [ih st2 h, step_size env st st2 op heq]

/-- C5, as stated, fails: the node returned by `newSubtree` has no children
and no parent link, and its `size` is `0` (the zero value of the field, which
the composite literal does not set), not `1`; `size >= 1` does not hold. -/
theorem newSubtree_size_not_one :
    (newSubtree 7 "pubsub").children = []
    ∧ (newSubtree 7 "pubsub").inp = none
    ∧ (newSubtree 7 "pubsub").size = 0
    ∧ ¬ ((newSubtree 7 "pubsub").size = 1)
    ∧ ¬ (1 ≤ (newSubtree 7 "pubsub").size) := by
  decide

/-- C5 (amended): the node returned by `newSubtree` (no children, no parent
link) has `size == 0`, and `size == 0` holds in every state reached from it by
the node's operations, under every environment: no operation of `subtree.go`
assigns the field. -/
theorem size_stays_zero (env : Env) (h : PeerID) (id : String) (w0 : World) (ops : List Op)
    (st : subtree × World) (hrun : run env ops (newSubtree h id, w0) = some st) :
    (newSubtree h id).children = [] ∧ (newSubtree h id).inp = none
    ∧ (newSubtree h id).size = 0 ∧ st.1.size = 0 := by
  refine ⟨rfl, rfl, rfl, ?_⟩
  rw [run_size env ops _ st hrun]
  rfl

/-- C5 (amended) at a concrete run: a fresh node attaches to a parent and
admits a child. -/
theorem size_stays_zero_witness :
    run (acceptingEnv 2 4)
        [Op.joinToPeer 1 { id := 0, remote := 1 }, Op.joinNewPeer { id := 1, remote := 5 }]
        (newSubtree 7 "pubsub", { next := 2, trace := [] })
      = some freshNodeAfter
    ∧ freshNodeAfter.1.size = 0 :=
  ⟨by decide,
   (size_stays_zero (acceptingEnv 2 4) 7 "pubsub" { next := 2, trace := [] }
      [Op.joinToPeer 1 { id := 0, remote := 1 }, Op.joinNewPeer { id := 1, remote := 5 }]
      freshNodeAfter (by decide)).2.2.2⟩

/-! ## Admission -/

theorem mapLookup_mapInsert (k : PeerID) (c : child) (m : List (PeerID × child)) (k1 : PeerID) :
    mapLookup k1 (mapInsert k c m) = if k1 = k then some c else mapLookup k1 m := by
  induction m with
  | nil =>
    by_cases h : k1 = k
    · simp [mapInsert, mapLookup, h]
    · have h1 : ¬ k = k1 := fun e => h e.symm
      simp [mapInsert, mapLookup, h, h1]
  | cons e rest ih =>
    obtain ⟨k2, c2⟩ := e
    by_cases h2 : k2 = k
    · by_cases h : k1 = k
      · simp [mapInsert, mapLookup, h2, h]
      · have h1 : ¬ k = k1 := fun e => h e.symm
        simp [mapInsert, mapLookup, h2, h, h1]
    · by_cases h : k1 = k
      · subst h
        simp [mapInsert, mapLookup, h2, ih]
      · by_cases h3 : k2 = k1
        · simp [mapInsert, mapLookup, h2, h, h3]
        · simp [mapInsert, mapLookup, h2, h, h3, ih]

/-- C7 (admission postcondition). For every node with `len(children) < cap`
(`cap` = `treeMaxWidth` if priority, else `treeWidth`) and every requester
stream `s` for which the writes of the call succeed (the welcome to `s` and,
when the node has a parent link, the `State` report to the parent),
`handleJoin` returns nil, and what it did is exactly: one `Update` written to
`s` with `Peers = [this node's identifier]` and the node's `TreeWidth` and
`TreeMaxWidth`; then, if and only if there is a parent link, one `State`
written to the parent with `Peers = [the requester's identifier]` and
`NumPeers = size`; then the report loop of the new child started. Afterwards
the children map is the old one with the requester's identifier bound to a
child holding `s`, and `treeWidth`, `treeMaxWidth`, `size` and the parent link
are unchanged. -/
theorem handleJoin_admits (env : Env) (sub : subtree) (w : World) (s : Stream) (prio : Bool)
    (hcap : (sub.children.length : Int) < (if prio then sub.treeMaxWidth else sub.treeWidth))
    (hwelcome : env.send (w.trace ++ [Event.admission s prio]) s (welcomeOf env sub) = none)
    (hreport : ∀ parent, sub.inp = some parent →
      env.send (w.trace ++ [Event.admission s prio, Event.write s (welcomeOf env sub) none])
        parent (notifOf env sub s) = none) :
    handleJoin env sub w s prio =
      ({ next := w.next,
         trace := w.trace ++ [Event.admission s prio, Event.write s (welcomeOf env sub) none]
          ++ (match sub.inp with
              | some parent => [Event.write parent (notifOf env sub s) none]
              | none => [])
          ++ [Event.spawn { id := s.remote, s := s }] },
       { sub with children := mapInsert s.remote { id := s.remote, s := s } sub.children },
       .ok ())
    ∧ (welcomeOf env sub).Typ = .Update
    ∧ (welcomeOf env sub).Peers = [env.pretty sub.h]
    ∧ (welcomeOf env sub).TreeWidth = sub.treeWidth
    ∧ (welcomeOf env sub).TreeMaxWidth = sub.treeMaxWidth
    ∧ (notifOf env sub s).Typ = .State
    ∧ (notifOf env sub s).Peers = [env.pretty s.remote]
    ∧ (notifOf env sub s).NumPeers = sub.size
    ∧ (∀ k, mapLookup k (handleJoin env sub w s prio).2.1.children
          = if k = s.remote then some { id := s.remote, s := s } else mapLookup k sub.children)
    ∧ (handleJoin env sub w s prio).2.1.treeWidth = sub.treeWidth
    ∧ (handleJoin env sub w s prio).2.1.treeMaxWidth = sub.treeMaxWidth
    ∧ (handleJoin env sub w s prio).2.1.size = sub.size
    ∧ (handleJoin env sub w s prio).2.1.inp = sub.inp := by
  have hmain : handleJoin env sub w s prio =
      ({ next := w.next,
         trace := w.trace ++ [Event.admission s prio, Event.write s (welcomeOf env sub) none]
          ++ (match sub.inp with
              | some parent => [Event.write parent (notifOf env sub s) none]
              | none => [])
          ++ [Event.spawn { id := s.remote, s := s }] },
       { sub with children := mapInsert s.remote { id := s.remote, s := s } sub.children },
       .ok ()) := by
    have hlt : ¬ ((sub.children.length : Int) ≥ capOf sub prio) := by
      unfold capOf; omega
    unfold handleJoin
    simp only [hlt, if_false, writeMessage, hwelcome]
    cases hp : sub.inp with
    | none => simp [notifyParent, hp]
    | some parent =>
      have h2 := hreport parent hp
      simp only [List.append_assoc, List.singleton_append] at h2
      simp [notifyParent, hp, writeMessage, h2]
  refine ⟨hmain, rfl, rfl, rfl, rfl, rfl, rfl, rfl, ?_, ?_, ?_, ?_, ?_⟩
  · intro k
    rw [hmain]
    exact mapLookup_mapInsert _ _ _ _
  all_goals rw [hmain]

/-- C7 at a concrete node: a node with a parent link, one child and
`treeWidth = 2` admits a second requester. -/
theorem handleJoin_admits_witness :
    handleJoin (acceptingEnv 2 4)
      { children := [(5, { id := 5, s := { id := 1, remote := 5 } })],
        treeWidth := 2, treeMaxWidth := 4, size := 0, protoid := "pubsub",
        inp := some { id := 0, remote := 1 }, h := 7 }
      { next := 3, trace := [] } { id := 2, remote := 6 } false
    = ({ next := 3,
         trace := [Event.admission { id := 2, remote := 6 } false,
           Event.write { id := 2, remote := 6 }
             { Typ := .Update, Peers := ["7"], TreeWidth := 2, TreeMaxWidth := 4 } none,
           Event.write { id := 0, remote := 1 }
             { Typ := .State, Peers := ["6"], NumPeers := 0 } none,
           Event.spawn { id := 6, s := { id := 2, remote := 6 } }] },
        { children := [(5, { id := 5, s := { id := 1, remote := 5 } }),
                       (6, { id := 6, s := { id := 2, remote := 6 } })],
          treeWidth := 2, treeMaxWidth := 4, size := 0, protoid := "pubsub",
          inp := some { id := 0, remote := 1 }, h := 7 },
        .ok ()) :=
  (handleJoin_admits (acceptingEnv 2 4)
      { children := [(5, { id := 5, s := { id := 1, remote := 5 } })],
        treeWidth := 2, treeMaxWidth := 4, size := 0, protoid := "pubsub",
        inp := some { id := 0, remote := 1 }, h := 7 }
      { next := 3, trace := [] } { id := 2, remote := 6 } false
      (by decide) rfl (fun _ _ => rfl)).1

/-! ## Redirect -/

theorem wrapInt_succ (x : Int) (h : IsInt x) (hlt : x < 10000000000) :
    wrapInt (x + 1) = x + 1 := by
  apply wrapInt_of_isInt
  unfold IsInt minInt maxInt at *
  omega

/-- What the scan of `redirectJoin` computes: either no entry is below the
initial minimum and `min`, `minc` are unchanged, or `minc` is the first entry
of least size. -/
theorem scanMin_spec (l : List (PeerID × child)) (i : Nat) (min : Int) (minc : Option Nat) :
    ((scanMin l i min minc).2 = minc ∧ (scanMin l i min minc).1 = min
        ∧ ∀ e ∈ l, min ≤ e.2.size)
    ∨ (∃ j e, (scanMin l i min minc).2 = some (i + j) ∧ l[j]? = some e
        ∧ e.2.size = (scanMin l i min minc).1 ∧ e.2.size < min
        ∧ (∀ e1 ∈ l, e.2.size ≤ e1.2.size)
        ∧ (∀ j1 e1, j1 < j → l[j1]? = some e1 → e.2.size < e1.2.size)) := by
  induction l generalizing i min minc with
  | nil => left; simp [scanMin]
  | cons hd rest ih =>
    obtain ⟨k, c⟩ := hd
    by_cases hlt : c.size < min
    · have hstep : scanMin ((k, c) :: rest) i min minc = scanMin rest (i + 1) c.size (some i) := by
        simp [scanMin, hlt]
      rw [hstep]
      right
      rcases ih (i + 1) c.size (some i) with ⟨h2, h1, hall⟩ | ⟨j, e, h2, hj, h1, hlt2, hall, hfirst⟩
      · refine ⟨0, (k, c), ?_, by simp, ?_, hlt, ?_, ?_⟩
        · simpa using h2
        · simpa using h1.symm
        · intro e1 he1
          rcases List.mem_cons.mp he1 with rfl | hmem
          · exact le_refl _
          · exact hall e1 hmem
        · intro j1 e1 hj1 _
          omega
      · refine ⟨j + 1, e, ?_, by simpa using hj, h1, lt_trans hlt2 hlt, ?_, ?_⟩
        · rw [h2]; congr 1; omega
        · intro e1 he1
          rcases List.mem_cons.mp he1 with rfl | hmem
          · exact le_of_lt hlt2
          · exact hall e1 hmem
        · intro j1 e1 hj1 he1
          cases j1 with
          | zero =>
            simp at he1
            rw [← he1]
            exact hlt2
          | succ j2 =>
            simp at he1
            exact hfirst j2 e1 (by omega) he1
    · have hstep : scanMin ((k, c) :: rest) i min minc = scanMin rest (i + 1) min minc := by
        simp [scanMin, hlt]
      rw [hstep]
      rcases ih (i + 1) min minc with ⟨h2, h1, hall⟩ | ⟨j, e, h2, hj, h1, hlt2, hall, hfirst⟩
      · left
        refine ⟨h2, h1, ?_⟩
        intro e1 he1
        rcases List.mem_cons.mp he1 with rfl | hmem
        · exact not_lt.mp hlt
        · exact hall e1 hmem
      · right
        refine ⟨j + 1, e, ?_, by simpa using hj, h1, hlt2, ?_, ?_⟩
        · rw [h2]; congr 1; omega
        · intro e1 he1
          rcases List.mem_cons.mp he1 with rfl | hmem
          · exact le_of_lt (lt_of_lt_of_le hlt2 (not_lt.mp hlt))
          · exact hall e1 hmem
        · intro j1 e1 hj1 he1
          cases j1 with
          | zero =>
            simp at he1
            rw [← he1]
            exact lt_of_lt_of_le hlt2 (not_lt.mp hlt)
          | succ j2 =>
            simp at he1
            exact hfirst j2 e1 (by omega) he1

theorem bumpSize_eq_set (l : List (PeerID × child)) (i : Nat) (k : PeerID) (c : child)
    (h : l[i]? = some (k, c)) :
    bumpSize l i = l.set i (k, { c with size := wrapInt (c.size + 1) }) := by
  induction l generalizing i with
  | nil => simp at h
  | cons hd rest ih =>
    cases i with
    | zero =>
      simp at h
      subst h
      simp [bumpSize]
    | succ j =>
      simp at h
      simp [bumpSize, ih j h]

/-- C2, as stated, fails: a node whose children map is not empty, all of whose
children have a recorded size of at least `10000000000` (the initial `min` of
the scan). The scan selects no child, and `redirectJoin` panics on the nil
`minc`: nothing is written to the requester. Such a size is recorded when the
child reports `NumPeers = 9999999999`. -/
theorem redirectJoin_no_reply_on_huge_sizes :
    hugeChild.children.length = 1
    ∧ (handleChildMessage { id := 5, s := { id := 1, remote := 5 } }
        { Typ := .State, NumPeers := 9999999999 }).size = 10000000000
    ∧ redirectJoin (acceptingEnv 1 1) hugeChild { next := 3, trace := [] } { id := 2, remote := 6 }
      = ({ next := 3, trace := [] }, hugeChild, .panic) := by
  decide

/-- C2 (amended): for every node in whose children map some child has a
recorded size below `10000000000` (sizes being Go `int` values),
`redirectJoin` writes to the requester one `Update` that names exactly one
child (the remote peer of that child's stream) and carries the node's
`TreeWidth` and `TreeMaxWidth`; the recorded size of that child is less than
or equal to that of every child, and strictly less than that of every child
visited before it; afterwards that child's recorded size is exactly one greater
than before and every other entry of the children map is unchanged. The call
returns nil and closes the requester stream when the write succeeds, and
returns the write error otherwise. -/
theorem redirectJoin_least_loaded (env : Env) (sub : subtree) (w : World) (s : Stream)
    (hsmall : ∃ e ∈ sub.children, e.2.size < 10000000000)
    (hint : ∀ e ∈ sub.children, IsInt e.2.size) :
    ∃ i k c,
      sub.children[i]? = some (k, c)
      ∧ (∀ e ∈ sub.children, c.size ≤ e.2.size)
      ∧ (∀ j e, j < i → sub.children[j]? = some e → c.size < e.2.size)
      ∧ (redirOf env sub c).Typ = .Update
      ∧ (redirOf env sub c).Peers = [env.pretty c.s.remote]
      ∧ (redirOf env sub c).TreeWidth = sub.treeWidth
      ∧ (redirOf env sub c).TreeMaxWidth = sub.treeMaxWidth
      ∧ redirectJoin env sub w s =
          (match env.send w.trace s (redirOf env sub c) with
           | none =>
             ({ w with trace := w.trace ++
                  [Event.write s (redirOf env sub c) none, Event.close s] },
              { sub with children := sub.children.set i (k, { c with size := c.size + 1 }) },
              .ok ())
           | some e =>
             ({ w with trace := w.trace ++ [Event.write s (redirOf env sub c) (some e)] },
              { sub with children := sub.children.set i (k, { c with size := c.size + 1 }) },
              .error e)) := by
  obtain ⟨e0, he0, hlt0⟩ := hsmall
  rcases scanMin_spec sub.children 0 10000000000 none with ⟨_, _, hall⟩ | ⟨j, e, h2, hj, h1, hlt, hall, hfirst⟩
  · exact absurd hlt0 (not_lt.mpr (hall e0 he0))
  · obtain ⟨k, c⟩ := e
    have hmem : (k, c) ∈ sub.children := List.getElem?_mem hj
    refine ⟨j, k, c, hj, hall, hfirst, rfl, rfl, rfl, rfl, ?_⟩
    have hne : ¬ sub.children.length = 0 := by
      intro h0
      rw [List.length_eq_zero] at h0
      rw [h0] at hmem
      simp at hmem
    have hw : wrapInt (c.size + 1) = c.size + 1 := wrapInt_succ _ (hint _ hmem) hlt
    simp only [Nat.zero_add] at h2
    unfold redirectJoin
    rw [if_neg hne]
    simp only [h2, hj, bumpSize_eq_set _ _ _ _ hj, hw, writeMessage, closeStream]
    cases env.send w.trace s (redirOf env sub c) with
    | none => simp
    | some e => simp

/-- C2 at the node with children of sizes 3, 1, 4: the hypotheses hold, the
theorem applies, and the child of size 1 is the one named; its size becomes
2. -/
theorem redirectJoin_least_loaded_witness :
    (∃ e ∈ threeChildren.children, e.2.size < 10000000000)
    ∧ (∀ e ∈ threeChildren.children, IsInt e.2.size)
    ∧ (∃ i k c,
      threeChildren.children[i]? = some (k, c)
      ∧ (∀ e ∈ threeChildren.children, c.size ≤ e.2.size)
      ∧ (∀ j e, j < i → threeChildren.children[j]? = some e → c.size < e.2.size)
      ∧ (redirOf (acceptingEnv 3 5) threeChildren c).Typ = .Update
      ∧ (redirOf (acceptingEnv 3 5) threeChildren c).Peers
          = [(acceptingEnv 3 5).pretty c.s.remote]
      ∧ (redirOf (acceptingEnv 3 5) threeChildren c).TreeWidth = threeChildren.treeWidth
      ∧ (redirOf (acceptingEnv 3 5) threeChildren c).TreeMaxWidth = threeChildren.treeMaxWidth
      ∧ redirectJoin (acceptingEnv 3 5) threeChildren World.init { id := 4, remote := 9 } =
          (match (acceptingEnv 3 5).send World.init.trace { id := 4, remote := 9 }
              (redirOf (acceptingEnv 3 5) threeChildren c) with
           | none =>
             ({ World.init with trace := World.init.trace ++
                  [Event.write { id := 4, remote := 9 }
                      (redirOf (acceptingEnv 3 5) threeChildren c) none,
                   Event.close { id := 4, remote := 9 }] },
              { threeChildren with
                  children := threeChildren.children.set i (k, { c with size := c.size + 1 }) },
              .ok ())
           | some e =>
             ({ World.init with trace := World.init.trace ++
                  [Event.write { id := 4, remote := 9 }
                      (redirOf (acceptingEnv 3 5) threeChildren c) (some e)] },
              { threeChildren with
                  children := threeChildren.children.set i (k, { c with size := c.size + 1 }) },
              .error e)))
    ∧ redirectJoin (acceptingEnv 3 5) threeChildren World.init { id := 4, remote := 9 }
        = ({ next := 0,
             trace := [Event.write { id := 4, remote := 9 }
                 { Typ := .Update, Peers := ["6"], TreeWidth := 3, TreeMaxWidth := 5 } none,
               Event.close { id := 4, remote := 9 }] },
           { threeChildren with
               children :=
                 [(5, { id := 5, s := { id := 1, remote := 5 }, size := 3 }),
                  (6, { id := 6, s := { id := 2, remote := 6 }, size := 2 }),
                  (8, { id := 8, s := { id := 3, remote := 8 }, size := 4 })] },
           .ok ()) :=
  ⟨⟨(6, { id := 6, s := { id := 2, remote := 6 }, size := 1 }), by decide, by decide⟩,
   by decide,
   redirectJoin_least_loaded (acceptingEnv 3 5) threeChildren World.init
     { id := 4, remote := 9 }
     ⟨(6, { id := 6, s := { id := 2, remote := 6 }, size := 1 }), by decide, by decide⟩
     (by decide),
   by decide⟩

/-! ## Upward size reports -/

/-- The events of `redirectJoin` contain no `State` message. -/
theorem redirectJoin_reports (env : Env) (sub : subtree) (w : World) (s : Stream) :
    ∃ evs, (redirectJoin env sub w s).1.trace = w.trace ++ evs ∧ stateReports evs = [] := by
  unfold redirectJoin
  split
  · exact ⟨[], by simp, rfl⟩
  · split
    · exact ⟨[], by simp, rfl⟩
    · split
      · exact ⟨[], by simp, rfl⟩
      · next i k minc _ =>
        simp only [writeMessage]
        cases hsend : env.send w.trace s (redirOf env sub minc) with
        | some e =>
          exact ⟨[Event.write s (redirOf env sub minc) (some e)], rfl,
            by simp [stateReports, redirOf]⟩
        | none =>
          exact ⟨[Event.write s (redirOf env sub minc) none, Event.close s],
            by simp [closeStream], by simp [stateReports, redirOf]⟩

/-- Every `State` message written by `handleJoin` is `notifOf`: it carries the
`size` the node had when the call began. -/
theorem handleJoin_reports (env : Env) (sub : subtree) (w : World) (s : Stream) (prio : Bool) :
    ∃ evs, (handleJoin env sub w s prio).1.trace = w.trace ++ evs
      ∧ ∀ m ∈ stateReports evs, m = notifOf env sub s := by
  unfold handleJoin
  simp only []
  split
  · obtain ⟨evs, h1, h2⟩ := redirectJoin_reports env sub
      { w with trace := w.trace ++ [Event.admission s prio] } s
    refine ⟨[Event.admission s prio] ++ evs ++ [Event.close s], ?_, ?_⟩
    · simp [closeStream, h1]
    · simp [stateReports_append, h2, stateReports]
  · simp only [writeMessage]
    cases hsend : env.send (w.trace ++ [Event.admission s prio]) s (welcomeOf env sub) with
    | some e =>
      exact ⟨[Event.admission s prio, Event.write s (welcomeOf env sub) (some e),
        Event.close s], by simp [closeStream], by simp [stateReports, welcomeOf]⟩
    | none =>
      cases hp : sub.inp with
      | none =>
        exact ⟨[Event.admission s prio, Event.write s (welcomeOf env sub) none,
          Event.spawn { id := s.remote, s := s }], by simp [notifyParent, hp],
          by simp [stateReports, welcomeOf]⟩
      | some parent =>
        simp only [notifyParent, hp, writeMessage]
        cases hsend2 : env.send (w.trace ++ [Event.admission s prio]
            ++ [Event.write s (welcomeOf env sub) none]) parent (notifOf env sub s) with
        | some e =>
          exact ⟨[Event.admission s prio, Event.write s (welcomeOf env sub) none,
            Event.write parent (notifOf env sub s) (some e)], by simp,
            by simp [stateReports, welcomeOf, notifOf]⟩
        | none =>
          exact ⟨[Event.admission s prio, Event.write s (welcomeOf env sub) none,
            Event.write parent (notifOf env sub s) none,
            Event.spawn { id := s.remote, s := s }], by simp,
            by simp [stateReports, welcomeOf, notifOf]⟩

/-- C8, as stated, fails: a fresh node attaches to a parent and then admits
two children in succession. Both `State` reports carry `NumPeers = 0`: the
second is not one greater than the first; and after the parent's report loop
handles the second report, the size it records for the node is `1`, not the
node's self plus its two admitted children. -/
theorem state_reports_do_not_grow :
    (run (acceptingEnv 2 4)
        [Op.joinToPeer 1 { id := 0, remote := 1 }, Op.joinNewPeer { id := 1, remote := 5 },
         Op.joinNewPeer { id := 2, remote := 6 }]
        (newSubtree 7 "pubsub", { next := 3, trace := [] })).map
      (fun st => (st.1.children.map (fun e => e.1), st.1.size, stateReports st.2.trace))
      = some ([5, 6], 0,
          [{ Typ := .State, Peers := ["5"], NumPeers := 0 },
           { Typ := .State, Peers := ["6"], NumPeers := 0 }])
    ∧ (handleChildMessages { id := 7, s := { id := 9, remote := 7 } }
        [{ Typ := .State, Peers := ["5"], NumPeers := 0 },
         { Typ := .State, Peers := ["6"], NumPeers := 0 }]).size = 1 := by
  decide

/-- C8 (amended): the `size` field is this node's estimate of its subtree size
as far as `subtree.go` goes, but no admission changes it. For a node that
handles any succession of join requests, every `State` report it writes
carries in `NumPeers` the `size` the node had before the first of them (the
k-th report carries the same value as the one before), and after the parent's
report loop handles such a report the size the parent records for the node is
that `size` plus one (in `int` arithmetic), whatever the number of admitted
children; for a node starting with `size = 0`, as a fresh one does, it is
`1`. -/
theorem state_reports_carry_initial_size (env : Env) (sub : subtree) (w : World)
    (reqs : List (Stream × Bool)) (st : subtree × World)
    (hrun : run env (reqs.map (fun a => Op.handleJoin a.1 a.2)) (sub, w) = some st) :
    st.1.size = sub.size
    ∧ ∃ evs, st.2.trace = w.trace ++ evs
      ∧ ∀ m ∈ stateReports evs, m.Typ = .State ∧ m.NumPeers = sub.size
          ∧ (∀ c : child, (handleChildMessage c m).size = wrapInt (sub.size + 1))
          ∧ (sub.size = 0 → ∀ c : child, (handleChildMessage c m).size = 1) := by
  induction reqs generalizing sub w with
  | nil =>
    simp only [List.map_nil, run] at hrun
    cases hrun
    exact ⟨rfl, [], by simp, by simp [stateReports]⟩
  | cons a rest ih =>
    simp only [List.map_cons, run] at hrun
    split at hrun
    · cases hrun
    · next st1 heq =>
      have hst := afterCall_some _ _ heq
      have hsz : st1.1.size = sub.size := step_size env (sub, w) st1 _ heq
      obtain ⟨evs1, ht1, hr1⟩ := handleJoin_reports env sub w a.1 a.2
      have hst1 : st1 = (st1.1, st1.2) := rfl
      rw [hst1] at hrun
      obtain ⟨hsize, evs2, ht2, hr2⟩ := ih st1.1 st1.2 hrun
      refine ⟨by rw [hsize, hsz], evs1 ++ evs2, ?_, ?_⟩
      · rw [ht2, hst]
        simp only []
        rw [ht1, List.append_assoc]
      · intro m hm
        rw [stateReports_append] at hm
        rcases List.mem_append.mp hm with h1 | h2
        · have := hr1 m h1
          subst this
          refine ⟨rfl, rfl, ?_, ?_⟩
          · intro c; simp [handleChildMessage, notifOf]
          · intro h0 c; simp [handleChildMessage, notifOf, h0]; decide
        · have := hr2 m h2
          rw [hsz] at this
          exact this

/-- C8 (amended) at a concrete node: a node with a parent link admits two
requesters. -/
theorem state_reports_carry_initial_size_witness :
    run (acceptingEnv 2 4)
        ([(({ id := 1, remote := 5 } : Stream), false), ({ id := 2, remote := 6 }, false)].map
          (fun a => Op.handleJoin a.1 a.2))
        (attachedNode, World.init)
      = some attachedNodeAfter
    ∧ attachedNodeAfter.1.size = attachedNode.size
    ∧ stateReports attachedNodeAfter.2.trace
        = [{ Typ := .State, Peers := ["5"], NumPeers := 0 },
           { Typ := .State, Peers := ["6"], NumPeers := 0 }] :=
  ⟨by decide,
   (state_reports_carry_initial_size (acceptingEnv 2 4) attachedNode World.init
      [(({ id := 1, remote := 5 } : Stream), false), ({ id := 2, remote := 6 }, false)]
      attachedNodeAfter (by decide)).1,
   by decide⟩

/-! ## The fan-out bound -/

/-- C1 on the code: two reachable states that break the fan-out bound.
(1) A fresh node attaches (`joinToPeer`) through a welcome that carries
`TreeWidth = 1`, `TreeMaxWidth = 0`, which `joinToPeer` adopts unchecked, and
then admits one peer by `joinNewPeer`: it has 1 child and `treeMaxWidth = 0`.
(2) A fresh node attaches through a welcome carrying the widths 2 and 2, admits
one peer by `joinNewPeer`, and attaches again through a welcome carrying the
widths 0 and 0: it has 1 child and `treeWidth = treeMaxWidth = 0`, and no
priority admission ever took place. -/
theorem fanout_bound_violated :
    (run (acceptingEnv 1 0)
        [Op.joinToPeer 1 { id := 0, remote := 1 }, Op.joinNewPeer { id := 1, remote := 5 }]
        (newSubtree 7 "pubsub", { next := 2, trace := [] })).map
      (fun st => (st.1.children.length, st.1.treeWidth, st.1.treeMaxWidth))
      = some (1, 1, 0)
    ∧ (run shrinkingEnv
        [Op.joinToPeer 1 { id := 0, remote := 1 }, Op.joinNewPeer { id := 1, remote := 5 },
         Op.joinToPeer 1 { id := 3, remote := 1 }]
        (newSubtree 7 "pubsub", { next := 4, trace := [] })).map
      (fun st => (st.1.children.length, st.1.treeWidth, st.1.treeMaxWidth,
        priorityAdmissions st.2.trace))
      = some (1, 0, 0, 0) :=
  ⟨by decide, by decide⟩

/-! ## Attachment -/

/-- One candidate of the loop of `joinParents` that is not the introducer, to
which a stream is opened, `Join` is sent, and whose answer is an `Update`. -/
theorem joinParentsLoop_update (env : Env)
    (recur : World → Stream → Message → Option (World × Except Err Stream))
    (sub : subtree) (itors : Stream) (p : PeerID) (ps : List PeerID) (last : Option Err)
    (w : World) (welcome : Message)
    (hp : p ≠ itors.remote)
    (hd : env.dial w.trace sub.protoid p = none)
    (hs : env.send (w.trace ++ [Event.dial p (.ok { id := w.next, remote := p })])
        { id := w.next, remote := p } { Typ := .Join } = none)
    (hr : env.recv (w.trace ++ [Event.dial p (.ok { id := w.next, remote := p }),
        Event.write { id := w.next, remote := p } { Typ := .Join } none])
        { id := w.next, remote := p } = .ok welcome)
    (ht : welcome.Typ = .Update) :
    joinParentsLoop env recur sub itors (p :: ps) last w =
      if welcome.Peers.length = 0 then
        some ({ next := w.next + 1,
                trace := w.trace ++ [Event.dial p (.ok { id := w.next, remote := p }),
                  Event.write { id := w.next, remote := p } { Typ := .Join } none,
                  Event.read { id := w.next, remote := p } (.ok welcome)] },
              .error .emptyWelcome)
      else if ¬ (welcome.Peers.length = 1 ∧ welcome.Peers.head? = some (env.pretty p)) then
        match recur { next := w.next + 1,
                      trace := w.trace ++ [Event.dial p (.ok { id := w.next, remote := p }),
                        Event.write { id := w.next, remote := p } { Typ := .Join } none,
                        Event.read { id := w.next, remote := p } (.ok welcome)] }
            { id := w.next, remote := p } welcome with
        | none => none
        | some (w4, .error e) => joinParentsLoop env recur sub itors ps (some e) w4
        | some (w4, .ok rec_s) => some (closeStream w4 { id := w.next, remote := p }, .ok rec_s)
      else
        some ({ next := w.next + 1,
                trace := w.trace ++ [Event.dial p (.ok { id := w.next, remote := p }),
                  Event.write { id := w.next, remote := p } { Typ := .Join } none,
                  Event.read { id := w.next, remote := p } (.ok welcome)] },
              .ok { id := w.next, remote := p }) := by
  have hr1 : env.recv (w.trace ++ [Event.dial p (.ok { id := w.next, remote := p })]
      ++ [Event.write { id := w.next, remote := p } { Typ := .Join } none])
      { id := w.next, remote := p } = .ok welcome := by
    simpa using hr
  rw [joinParentsLoop]
  simp only [if_neg hp, newStream, hd, writeMessage, hs, readMessage, hr1, ht]
  simp only [List.append_assoc, List.singleton_append, List.cons_append, List.nil_append]

theorem translPeerIDs_single (env : Env) (q : PeerID) (h : env.decode (env.pretty q) = some q) :
    translPeerIDs env [env.pretty q] = .ok [q] := by
  simp [translPeerIDs, h]

theorem streamsFrom_ne_nil (n : Nat) (q : PeerID) (rest : List PeerID) :
    streamsFrom n (q :: rest) ≠ [] := by
  simp [streamsFrom]

/-- The resolution of a welcome that names the head of a redirect chain. -/
theorem joinParents_chain (env : Env) (sub : subtree)
    (hdial : ∀ h proto p, env.dial h proto p = none)
    (hsend : ∀ h t m, env.send h t m = none) :
    ∀ (rest : List PeerID) (q pn : PeerID) (fuel : Nat) (w : World) (itors : Stream)
      (m : Message),
      m.Peers = [env.pretty q] →
      (itors.remote :: q :: rest).Nodup →
      RedirectChain env (q :: rest) →
      (∀ p ∈ q :: rest, env.decode (env.pretty p) = some p) →
      (q :: rest).getLast? = some pn →
      rest.length + 1 ≤ fuel →
      ∃ w1 evs,
        joinParents env sub fuel w itors m
          = some (w1, .ok { id := w.next + rest.length, remote := pn })
        ∧ w1.trace = w.trace ++ evs
        ∧ openedStreams evs = streamsFrom w.next (q :: rest)
        ∧ closedStreams evs = ((streamsFrom w.next (q :: rest)).dropLast).reverse := by
  intro rest
  induction rest with
  | nil =>
    intro q pn fuel w itors m hm hnd hch hco hlast hfuel
    obtain ⟨fuel1, rfl⟩ : ∃ f, fuel = f + 1 := ⟨fuel - 1, by omega⟩
    have hq : q ≠ itors.remote := by
      intro h
      simp [h] at hnd
    have hpn : pn = q := by simpa using hlast.symm
    subst hpn
    obtain ⟨welcome, hrecv, ht, hpeers⟩ := hch
      (w.trace ++ [Event.dial pn (.ok { id := w.next, remote := pn }),
        Event.write { id := w.next, remote := pn } { Typ := .Join } none])
      { id := w.next, remote := pn } rfl
    have hloop := joinParentsLoop_update env (joinParents env sub fuel1) sub itors pn [] none w
      welcome hq (hdial _ _ _) (hsend _ _ _) hrecv ht
    simp only [hpeers, List.length_singleton, List.head?_cons] at hloop
    simp only [joinParents, joinParentsBody, hm,
      translPeerIDs_single env pn (hco pn (by simp))]
    simp only [List.length_singleton]
    rw [if_neg (by decide)]
    rw [hloop]
    simp only [one_ne_zero, if_false, true_and, not_true_eq_false, and_self]
    refine ⟨_, _, rfl, rfl, ?_, ?_⟩
    · simp [openedStreams, streamsFrom]
    · simp [closedStreams, streamsFrom]
  | cons q1 rest1 ih =>
    intro q pn fuel w itors m hm hnd hch hco hlast hfuel
    obtain ⟨fuel1, rfl⟩ : ∃ f, fuel = f + 1 := ⟨fuel - 1, by simp at hfuel; omega⟩
    have hq : q ≠ itors.remote := by
      intro h
      simp [h] at hnd
    have hnd1 : (q :: q1 :: rest1).Nodup := (List.nodup_cons.mp hnd).2
    have hqq1 : q1 ≠ q := by
      intro h
      simp [h] at hnd1
    obtain ⟨hnames, hch1⟩ := hch
    obtain ⟨welcome, hrecv, ht, hpeers⟩ := hnames
      (w.trace ++ [Event.dial q (.ok { id := w.next, remote := q }),
        Event.write { id := w.next, remote := q } { Typ := .Join } none])
      { id := w.next, remote := q } rfl
    have hpretty : env.pretty q1 ≠ env.pretty q := by
      intro h
      have h1 := hco q1 (by simp)
      have h2 := hco q (by simp)
      rw [h, h2] at h1
      exact hqq1 (Option.some.inj h1).symm
    have hloop := joinParentsLoop_update env (joinParents env sub fuel1) sub itors q [] none w
      welcome hq (hdial _ _ _) (hsend _ _ _) hrecv ht
    simp only [hpeers, List.length_singleton, List.head?_cons] at hloop
    have hlast1 : (q1 :: rest1).getLast? = some pn := by
      simpa [List.getLast?_cons_cons] using hlast
    obtain ⟨w4, evs1, hrec, htr, hop, hcl⟩ := ih q1 pn fuel1
      { next := w.next + 1,
        trace := w.trace ++ [Event.dial q (.ok { id := w.next, remote := q }),
          Event.write { id := w.next, remote := q } { Typ := .Join } none,
          Event.read { id := w.next, remote := q } (.ok welcome)] }
      { id := w.next, remote := q } welcome hpeers hnd1 hch1
      (fun p hp => hco p (List.mem_cons_of_mem _ hp)) hlast1 (by simp at hfuel; omega)
    simp only [joinParents, joinParentsBody, hm,
      translPeerIDs_single env q (hco q (by simp))]
    simp only [List.length_singleton]
    rw [if_neg (by decide)]
    rw [hloop]
    have hneq : ¬ (some (env.pretty q1) = some (env.pretty q)) := by
      intro h
      exact hpretty (Option.some.inj h)
    simp only [one_ne_zero, if_false, true_and, hneq, not_false_eq_true, if_true]
    rw [hrec]
    refine ⟨closeStream w4 { id := w.next, remote := q },
      [Event.dial q (.ok { id := w.next, remote := q }),
        Event.write { id := w.next, remote := q } { Typ := .Join } none,
        Event.read { id := w.next, remote := q } (.ok welcome)] ++ evs1
        ++ [Event.close { id := w.next, remote := q }], ?_, ?_, ?_, ?_⟩
    · simp only [List.length_cons]
      have : w.next + 1 + rest1.length = w.next + (rest1.length + 1) := by omega
      rw [this]
    · simp [closeStream, htr]
    · simp [openedStreams_append, openedStreams, hop, streamsFrom]
    · simp only [closedStreams_append, closedStreams, hcl, List.nil_append]
      have hne := streamsFrom_ne_nil (w.next + 1) q1 rest1
      rw [streamsFrom, List.dropLast_cons_of_ne_nil hne]
      simp [closedStreams_append, closedStreams, hcl]

theorem streamsFrom_dropLast_id (l : List PeerID) (n : Nat) :
    ∀ t ∈ (streamsFrom n l).dropLast, t.id + 1 < n + l.length := by
  induction l generalizing n with
  | nil => intro t ht; simp [streamsFrom] at ht
  | cons p rest ih =>
    intro t ht
    cases rest with
    | nil => simp [streamsFrom] at ht
    | cons p1 rest1 =>
      rw [streamsFrom, List.dropLast_cons_of_ne_nil (streamsFrom_ne_nil _ _ _)] at ht
      rcases List.mem_cons.mp ht with rfl | hmem
      · simp
      · have := ih (n + 1) t hmem
        simp only [List.length_cons] at this ⊢
        omega

theorem streamsFrom_split (l : List PeerID) (n : Nat) (pn : PeerID)
    (hlast : l.getLast? = some pn) :
    streamsFrom n l
      = (streamsFrom n l).dropLast ++ [{ id := n + (l.length - 1), remote := pn }] := by
  induction l generalizing n with
  | nil => simp at hlast
  | cons p rest ih =>
    cases rest with
    | nil =>
      simp at hlast
      subst hlast
      simp [streamsFrom]
    | cons p1 rest1 =>
      have hlast1 : (p1 :: rest1).getLast? = some pn := by
        simpa [List.getLast?_cons_cons] using hlast
      have h := ih (n + 1) hlast1
      have hs : streamsFrom n (p :: p1 :: rest1)
          = { id := n, remote := p } :: streamsFrom (n + 1) (p1 :: rest1) := rfl
      have hid : n + ((p :: p1 :: rest1).length - 1) = n + 1 + ((p1 :: rest1).length - 1) := by
        simp only [List.length_cons]; omega
      rw [hs, List.dropLast_cons_of_ne_nil (streamsFrom_ne_nil _ _ _), List.cons_append, hid,
        ← h]

/-- C3 (attachment convergence). For every redirect chain
`p0 → p1 → ... → pn` of distinct peers with `n ≥ 1` (`rest` is `p1 ... pn`),
in which each peer but the last answers `Join` with an `Update` naming exactly
its successor, `pn` answers with an `Update` naming exactly itself (the names
decode to the peers), and every connection and write succeeds: `joinToPeer`
called with a stream `s` to `p0`, with fuel for the `n` nested resolutions,
returns nil; the parent link is the stream opened to `pn` (the last of the
streams the call opened, one per peer `p1 ... pn` in order); that stream is not
closed by the call; and the call closed exactly the streams to
`p0 ... p(n-1)`: the intermediate streams, innermost first, and then `s`. -/
theorem joinToPeer_follows_chain (env : Env) (sub : subtree) (w : World) (s : Stream)
    (p0 : PeerID) (rest : List PeerID) (pn : PeerID) (fuel : Nat)
    (hnodup : (p0 :: rest).Nodup)
    (hs : s.remote = p0)
    (hchain : RedirectChain env (p0 :: rest))
    (hlast : rest.getLast? = some pn)
    (hdial : ∀ h proto p, env.dial h proto p = none)
    (hsend : ∀ h t m, env.send h t m = none)
    (hcodec : ∀ p ∈ rest, env.decode (env.pretty p) = some p)
    (hfuel : rest.length ≤ fuel) :
    ∃ w1 sub1 evs,
      joinToPeer env fuel sub w s = some (w1, sub1, .ok ())
      ∧ w1.trace = w.trace ++ evs
      ∧ sub1.inp = some { id := w.next + (rest.length - 1), remote := pn }
      ∧ sub1.children = sub.children
      ∧ openedStreams evs = streamsFrom w.next rest
      ∧ closedStreams evs = (s :: (streamsFrom w.next rest).dropLast).reverse
      ∧ { id := w.next + (rest.length - 1), remote := pn } ∈ openedStreams evs
      ∧ { id := w.next + (rest.length - 1), remote := pn } ∉ closedStreams evs
      ∧ s ∈ closedStreams evs
      ∧ (∀ t ∈ openedStreams evs, t ≠ { id := w.next + (rest.length - 1), remote := pn } →
          t ∈ closedStreams evs) := by
  cases rest with
  | nil => simp at hlast
  | cons q rest1 =>
    obtain ⟨hnames, hch1⟩ := hchain
    obtain ⟨m, hrecv, ht, hpeers⟩ := hnames
      (w.trace ++ [Event.write s { Typ := .Join } none]) s hs
    have hnd : (s.remote :: q :: rest1).Nodup := by rw [hs]; exact hnodup
    obtain ⟨w3, evs1, hrec, htr, hop, hcl⟩ :=
      joinParents_chain env
        { sub with treeWidth := m.TreeWidth, treeMaxWidth := m.TreeMaxWidth }
        hdial hsend rest1 q pn fuel
        { next := w.next,
          trace := w.trace ++ [Event.write s { Typ := .Join } none]
            ++ [Event.read s (.ok m)] }
        s m hpeers hnd hch1 hcodec hlast (by simpa using hfuel)
    have hpn : pn ∈ q :: rest1 := List.mem_of_getLast?_eq_some hlast
    have hne : ({ id := w.next + rest1.length, remote := pn } : Stream) ≠ s := by
      intro h
      have h1 : pn = s.remote := by rw [← h]
      rw [hs] at h1
      rw [h1] at hpn
      exact (List.nodup_cons.mp hnodup).1 hpn
    have hsplit := streamsFrom_split (q :: rest1) w.next pn hlast
    have hlen : (q :: rest1).length - 1 = rest1.length := by simp
    rw [hlen] at hsplit
    simp only [hlen]
    have hopen : openedStreams ([Event.write s { Typ := .Join } none, Event.read s (.ok m)]
        ++ evs1 ++ [Event.close s]) = streamsFrom w.next (q :: rest1) := by
      simp [openedStreams_append, openedStreams, hop]
    have hclosed : closedStreams ([Event.write s { Typ := .Join } none, Event.read s (.ok m)]
        ++ evs1 ++ [Event.close s])
        = (s :: (streamsFrom w.next (q :: rest1)).dropLast).reverse := by
      simp [closedStreams_append, closedStreams, hcl]
    refine ⟨closeStream w3 s,
      { sub with treeWidth := m.TreeWidth, treeMaxWidth := m.TreeMaxWidth,
                 inp := some { id := w.next + rest1.length, remote := pn } },
      [Event.write s { Typ := .Join } none, Event.read s (.ok m)] ++ evs1 ++ [Event.close s],
      ?_, ?_, rfl, rfl, hopen, hclosed, ?_, ?_, ?_, ?_⟩
    · unfold joinToPeer
      simp only [writeMessage, hsend, readMessage, hrecv]
      rw [hrec]
      simp only [hne, ne_eq, not_false_eq_true, if_true]
    · simp [closeStream, htr]
    · rw [hopen, hsplit]
      simp
    · rw [hclosed]
      intro hmem
      rcases List.mem_cons.mp (List.mem_reverse.mp hmem) with h1 | h1
      · exact hne h1
      · have h2 := streamsFrom_dropLast_id (q :: rest1) w.next _ h1
        simp only [List.length_cons] at h2
        omega
    · rw [hclosed]
      simp
    · intro t ht hnt
      rw [hopen, hsplit] at ht
      rw [hclosed]
      rcases List.mem_append.mp ht with h1 | h1
      · exact List.mem_reverse.mpr (List.mem_cons_of_mem _ h1)
      · simp only [List.mem_singleton] at h1
        exact absurd h1 hnt

theorem chainEnv_names_12 : Names chainEnv 1 2 := by
  intro h s hs
  refine ⟨_, rfl, rfl, ?_⟩
  simp [chainEnv, hs]

theorem chainEnv_names_23 : Names chainEnv 2 3 := by
  intro h s hs
  refine ⟨_, rfl, rfl, ?_⟩
  simp [chainEnv, hs]

theorem chainEnv_names_33 : Names chainEnv 3 3 := by
  intro h s hs
  refine ⟨_, rfl, rfl, ?_⟩
  simp [chainEnv, hs]

/-- C3 on the 3-hop chain A → B → C (peers 1, 2, 3): the joiner presented with
A ends bound to the stream opened to C; the streams to B and to A are
closed. -/
theorem joinToPeer_follows_chain_witness :
    joinToPeer chainEnv 2 (newSubtree 7 "pubsub") { next := 1, trace := [] }
        { id := 0, remote := 1 } = some chainAfter
    ∧ ∃ w1 sub1 evs,
      joinToPeer chainEnv 2 (newSubtree 7 "pubsub") { next := 1, trace := [] }
          { id := 0, remote := 1 } = some (w1, sub1, .ok ())
      ∧ w1.trace = [] ++ evs
      ∧ sub1.inp = some { id := 1 + ([2, 3].length - 1), remote := 3 }
      ∧ sub1.children = (newSubtree 7 "pubsub").children
      ∧ openedStreams evs = streamsFrom 1 [2, 3]
      ∧ closedStreams evs
          = (({ id := 0, remote := 1 } : Stream) :: (streamsFrom 1 [2, 3]).dropLast).reverse
      ∧ { id := 1 + ([2, 3].length - 1), remote := 3 } ∈ openedStreams evs
      ∧ { id := 1 + ([2, 3].length - 1), remote := 3 } ∉ closedStreams evs
      ∧ { id := 0, remote := 1 } ∈ closedStreams evs
      ∧ (∀ t ∈ openedStreams evs, t ≠ { id := 1 + ([2, 3].length - 1), remote := 3 } →
          t ∈ closedStreams evs) :=
  ⟨by decide,
   joinToPeer_follows_chain chainEnv (newSubtree 7 "pubsub") { next := 1, trace := [] }
     { id := 0, remote := 1 } 1 [2, 3] 3 2 (by decide) rfl
     ⟨chainEnv_names_12, chainEnv_names_23, chainEnv_names_33⟩ rfl
     (fun _ _ _ => rfl) (fun _ _ _ => rfl) (by decide) (by decide)⟩

/-! ## Candidate fall-through -/

/-- A failing candidate makes the loop go on with the next one. -/
theorem joinParentsLoop_skip (env : Env)
    (recur : World → Stream → Message → Option (World × Except Err Stream))
    (sub : subtree) (itors : Stream) (p : PeerID) (ps : List PeerID) (w w1 : World)
    (hp : p ≠ itors.remote) (hf : CandidateFails env recur sub p w w1) (last : Option Err) :
    ∃ last1, joinParentsLoop env recur sub itors (p :: ps) last w
      = joinParentsLoop env recur sub itors ps last1 w1 := by
  match hf with
  | .connect _ _ e h1 =>
    exact ⟨some e, by rw [joinParentsLoop]; simp only [if_neg hp, h1]⟩
  | .send _ w1 _ pstr e h1 h2 =>
    exact ⟨some e, by rw [joinParentsLoop]; simp only [if_neg hp, h1, h2]⟩
  | .read _ w1 w2 _ pstr e h1 h2 h3 =>
    exact ⟨some e, by rw [joinParentsLoop]; simp only [if_neg hp, h1, h2, h3]⟩
  | .reply _ w1 w2 _ pstr welcome h1 h2 h3 h4 =>
    refine ⟨last, ?_⟩
    rw [joinParentsLoop]
    simp only [if_neg hp, h1, h2, h3]
  | .resolution _ w1 w2 w3 _ pstr welcome e h1 h2 h3 h4 h5 h6 h7 =>
    refine ⟨some e, ?_⟩
    have hlen : ¬ welcome.Peers.length = 0 := by
      intro h
      exact h5 (List.length_eq_zero.mp h)
    have hself : ¬ (welcome.Peers.length = 1 ∧ welcome.Peers.head? = some (env.pretty p)) := by
      rintro ⟨ha, hb⟩
      apply h6
      obtain ⟨x, hx⟩ := List.length_eq_one.mp ha
      rw [hx] at hb ⊢
      simp at hb
      rw [hb]
    rw [joinParentsLoop]
    simp only [if_neg hp, h1, h2, h3, h4, if_neg hlen, hself, not_false_eq_true, if_true, h7]

theorem joinParentsLoop_skip_all (env : Env)
    (recur : World → Stream → Message → Option (World × Except Err Stream))
    (sub : subtree) (itors : Stream) (pre rest : List PeerID) (w w1 : World)
    (hf : AllFail env recur sub itors pre w w1) (last : Option Err) :
    ∃ last1, joinParentsLoop env recur sub itors (pre ++ rest) last w
      = joinParentsLoop env recur sub itors rest last1 w1 := by
  induction hf generalizing last with
  | nil w => exact ⟨last, rfl⟩
  | cons p ps w w1 w2 hp hc _ ih =>
    obtain ⟨last1, h1⟩ := joinParentsLoop_skip env recur sub itors p (ps ++ rest) w w1 hp hc last
    obtain ⟨last2, h2⟩ := ih last1
    exact ⟨last2, by rw [List.cons_append, h1, h2]⟩

/-- How the loop can end with an error: every candidate failed, or a
candidate reached after failing ones answered with an `Update` whose peer
list is empty. -/
theorem joinParentsLoop_error (env : Env)
    (recur : World → Stream → Message → Option (World × Except Err Stream))
    (sub : subtree) (itors : Stream) (ps : List PeerID) :
    ∀ (last : Option Err) (w w2 : World) (e : Err),
      joinParentsLoop env recur sub itors ps last w = some (w2, .error e) →
      AllFail env recur sub itors ps w w2
      ∨ ∃ pre c post w1 welcome, ps = pre ++ c :: post
          ∧ AllFail env recur sub itors pre w w1 ∧ c ≠ itors.remote
          ∧ Answers env sub w1 c welcome ∧ welcome.Typ = .Update ∧ welcome.Peers = []
          ∧ w2 = afterAnswer w1 c welcome ∧ e = .emptyWelcome := by
  induction ps with
  | nil =>
    intro last w w2 e h
    left
    unfold joinParentsLoop at h
    cases last with
    | none =>
      simp only [Option.some.injEq, Prod.mk.injEq] at h
      rw [← h.1]
      exact AllFail.nil w
    | some e1 =>
      simp only [Option.some.injEq, Prod.mk.injEq] at h
      rw [← h.1]
      exact AllFail.nil w
  | cons p ps ih =>
    intro last w w2 e h
    by_cases hp : p = itors.remote
    · rw [joinParentsLoop, if_pos hp] at h
      simp at h
    · have lift : ∀ (w1 : World) (last1 : Option Err),
          CandidateFails env recur sub p w w1 →
          joinParentsLoop env recur sub itors ps last1 w1 = some (w2, .error e) →
          AllFail env recur sub itors (p :: ps) w w2
          ∨ ∃ pre c post w1 welcome, p :: ps = pre ++ c :: post
              ∧ AllFail env recur sub itors pre w w1 ∧ c ≠ itors.remote
              ∧ Answers env sub w1 c welcome ∧ welcome.Typ = .Update ∧ welcome.Peers = []
              ∧ w2 = afterAnswer w1 c welcome ∧ e = .emptyWelcome := by
        intro w1 last1 hf hrest
        rcases ih last1 w1 w2 e hrest with hall | ⟨pre, c, post, w3, welcome, h1, h2, h3, h4, h5, h6, h7, h8⟩
        · left
          exact AllFail.cons p ps w w1 w2 hp hf hall
        · right
          exact ⟨p :: pre, c, post, w3, welcome, by rw [h1]; rfl,
            AllFail.cons p pre w w1 w3 hp hf h2, h3, h4, h5, h6, h7, h8⟩
      rw [joinParentsLoop, if_neg hp] at h
      cases hd : env.dial w.trace sub.protoid p with
      | some e1 =>
        have hn : newStream env sub.protoid w p
            = ({ w with trace := w.trace ++ [Event.dial p (.error e1)] }, .error e1) := by
          simp [newStream, hd]
        rw [hn] at h
        exact lift _ _ (CandidateFails.connect _ _ e1 hn) h
      | none =>
        have hn : newStream env sub.protoid w p
            = ({ next := w.next + 1,
                 trace := w.trace ++ [Event.dial p (.ok { id := w.next, remote := p })] },
               .ok { id := w.next, remote := p }) := by
          simp [newStream, hd]
        rw [hn] at h
        simp only [] at h
        cases hs : env.send (w.trace ++ [Event.dial p (.ok { id := w.next, remote := p })])
            { id := w.next, remote := p } { Typ := .Join } with
        | some e1 =>
          have hw : writeMessage env
              { next := w.next + 1,
                trace := w.trace ++ [Event.dial p (.ok { id := w.next, remote := p })] }
              { id := w.next, remote := p } { Typ := .Join }
              = ({ next := w.next + 1,
                   trace := w.trace ++ [Event.dial p (.ok { id := w.next, remote := p })]
                     ++ [Event.write { id := w.next, remote := p } { Typ := .Join }
                          (some e1)] },
                 some e1) := by
            simp [writeMessage, hs]
          rw [hw] at h
          exact lift _ _ (CandidateFails.send _ _ _ _ e1 hn hw) h
        | none =>
          have hw : writeMessage env
              { next := w.next + 1,
                trace := w.trace ++ [Event.dial p (.ok { id := w.next, remote := p })] }
              { id := w.next, remote := p } { Typ := .Join }
              = ({ next := w.next + 1,
                   trace := w.trace ++ [Event.dial p (.ok { id := w.next, remote := p })]
                     ++ [Event.write { id := w.next, remote := p } { Typ := .Join } none] },
                 none) := by
            simp [writeMessage, hs]
          rw [hw] at h
          simp only [] at h
          cases hr : env.recv
              (w.trace ++ [Event.dial p (.ok { id := w.next, remote := p })]
                ++ [Event.write { id := w.next, remote := p } { Typ := .Join } none])
              { id := w.next, remote := p } with
          | error e1 =>
            have hrd : readMessage env
                { next := w.next + 1,
                  trace := w.trace ++ [Event.dial p (.ok { id := w.next, remote := p })]
                    ++ [Event.write { id := w.next, remote := p } { Typ := .Join } none] }
                { id := w.next, remote := p }
                = ({ next := w.next + 1,
                     trace := w.trace ++ [Event.dial p (.ok { id := w.next, remote := p })]
                       ++ [Event.write { id := w.next, remote := p } { Typ := .Join } none]
                       ++ [Event.read { id := w.next, remote := p } (.error e1)] },
                   .error e1) := by
              simp only [readMessage, hr]
            rw [hrd] at h
            exact lift _ _ (CandidateFails.read _ _ _ _ _ e1 hn hw hrd) h
          | ok welcome =>
            have hrd : readMessage env
                { next := w.next + 1,
                  trace := w.trace ++ [Event.dial p (.ok { id := w.next, remote := p })]
                    ++ [Event.write { id := w.next, remote := p } { Typ := .Join } none] }
                { id := w.next, remote := p }
                = (afterAnswer w p welcome, .ok welcome) := by
              simp only [readMessage, hr]
              simp [afterAnswer]
            rw [hrd] at h
            simp only [] at h
            by_cases ht : welcome.Typ = .Update
            · simp only [ht] at h
              by_cases hlen : welcome.Peers.length = 0
              · rw [if_pos hlen] at h
                simp only [Option.some.injEq, Prod.mk.injEq, Except.error.injEq] at h
                right
                refine ⟨[], p, ps, w, welcome, rfl, AllFail.nil w, hp, ⟨hd, hs, ?_⟩, ht,
                  List.length_eq_zero.mp hlen, h.1.symm, h.2.symm⟩
                simpa using hr
              · rw [if_neg hlen] at h
                by_cases hself : welcome.Peers.length = 1
                    ∧ welcome.Peers.head? = some (env.pretty p)
                · rw [if_neg (not_not.mpr hself)] at h
                  simp at h
                · rw [if_pos hself] at h
                  cases hrec : recur (afterAnswer w p welcome) { id := w.next, remote := p }
                      welcome with
                  | none =>
                    rw [hrec] at h
                    simp at h
                  | some res =>
                    obtain ⟨w4, r⟩ := res
                    cases r with
                    | ok rec_s =>
                      rw [hrec] at h
                      simp at h
                    | error e1 =>
                      rw [hrec] at h
                      simp only [] at h
                      have hne : welcome.Peers ≠ [] := fun h0 => hlen (by rw [h0]; rfl)
                      have hns : welcome.Peers ≠ [env.pretty p] := by
                        intro h0
                        apply hself
                        rw [h0]
                        exact ⟨rfl, rfl⟩
                      exact lift _ _
                        (CandidateFails.resolution _ _ _ _ _ _ welcome e1 hn hw hrd ht hne hns
                          hrec) h
            · have hstep : (match welcome.Typ with
                  | .Update =>
                    if welcome.Peers.length = 0 then
                      some (afterAnswer w p welcome, Except.error Err.emptyWelcome)
                    else if ¬ (welcome.Peers.length = 1
                        ∧ welcome.Peers.head? = some (env.pretty p)) then
                      match recur (afterAnswer w p welcome) { id := w.next, remote := p }
                          welcome with
                      | none => none
                      | some (w4, .error e) =>
                        joinParentsLoop env recur sub itors ps (some e) w4
                      | some (w4, .ok rec_s) =>
                        some (closeStream w4 { id := w.next, remote := p }, .ok rec_s)
                    else some (afterAnswer w p welcome, .ok { id := w.next, remote := p })
                  | _ => joinParentsLoop env recur sub itors ps last (afterAnswer w p welcome))
                  = joinParentsLoop env recur sub itors ps last (afterAnswer w p welcome) := by
                split
                · next h5 => exact absurd h5 ht
                · rfl
              rw [hstep] at h
              exact lift _ _ (CandidateFails.reply _ _ _ _ _ welcome hn hw hrd ht) h

/-- C6, as stated, fails: the welcome names the candidates 1 and 2; candidate
2 accepts directly (a welcome naming it alone resolves to the stream opened to
it), candidate 1 is not the introducer and answers with an `Update` whose peer
list is empty. `joinParents` does not go on to candidate 2: it returns the
error "got welcome update with no parents set" right after the answer of
candidate 1. -/
theorem joinParents_empty_update_aborts :
    joinParents emptyUpdateEnv (newSubtree 7 "pubsub") 2 { next := 1, trace := [] }
        { id := 0, remote := 9 } { Typ := .Update, Peers := ["1", "2"] }
      = some ({ next := 2,
                trace := [Event.dial 1 (.ok { id := 1, remote := 1 }),
                  Event.write { id := 1, remote := 1 } { Typ := .Join } none,
                  Event.read { id := 1, remote := 1 }
                    (.ok { Typ := .Update, Peers := [], TreeWidth := 2, TreeMaxWidth := 4 })] },
              .error .emptyWelcome)
    ∧ joinParents emptyUpdateEnv (newSubtree 7 "pubsub") 2 { next := 1, trace := [] }
        { id := 0, remote := 9 } { Typ := .Update, Peers := ["2"] }
      = some ({ next := 2,
                trace := [Event.dial 2 (.ok { id := 1, remote := 2 }),
                  Event.write { id := 1, remote := 2 } { Typ := .Join } none,
                  Event.read { id := 1, remote := 2 }
                    (.ok { Typ := .Update, Peers := ["2"], TreeWidth := 2,
                           TreeMaxWidth := 4 })] },
              .ok { id := 1, remote := 2 }) :=
  ⟨by decide, by decide⟩

/-- C6 (amended). `joinParents` tries the candidates of the welcome in order,
and a failing candidate never prevents a later one from being used, with one
exception: a candidate that answers with an `Update` whose peer list is empty
ends the resolution with an error. For every decodable candidate list:
(1) whenever the list is `pre ++ c :: post` and every candidate of `pre` is not
the introducer and fails (by a connection, send or read failure, by a reply
that is not an `Update`, or by an `Update` with a non-empty peer list whose own
resolution returns an error), `joinParents` does with `c` what it would do
with a first candidate: if `c` is the introducer it returns the introducing
stream; if `c` is reached and answers with an `Update` naming only itself it
returns the stream opened to `c`; if `c` answers with another non-empty
`Update` whose resolution succeeds it closes the stream to `c` and returns the
resolved stream; and if `c` answers with an `Update` whose peer list is empty
it returns the error "got welcome update with no parents set" without trying
`post`;
(2) `joinParents` returns an error only when no candidate yields a usable
attachment (every candidate is not the introducer and fails), or when a
candidate reached after failing ones answered with an `Update` whose peer list
is empty. -/
theorem joinParents_falls_through (env : Env) (sub : subtree) (fuel : Nat) (w : World)
    (itors : Stream) (m : Message) (parents : List PeerID)
    (hdecode : translPeerIDs env m.Peers = .ok parents) :
    (∀ (pre : List PeerID) (c : PeerID) (post : List PeerID) (w1 : World),
      parents = pre ++ c :: post →
      AllFail env (joinParents env sub fuel) sub itors pre w w1 →
      (c = itors.remote → joinParents env sub (fuel + 1) w itors m = some (w1, .ok itors))
      ∧ (∀ welcome, c ≠ itors.remote → Answers env sub w1 c welcome →
          welcome.Typ = .Update → welcome.Peers = [env.pretty c] →
          joinParents env sub (fuel + 1) w itors m
            = some (afterAnswer w1 c welcome, .ok { id := w1.next, remote := c }))
      ∧ (∀ welcome w4 rec_s, c ≠ itors.remote → Answers env sub w1 c welcome →
          welcome.Typ = .Update → welcome.Peers ≠ [] → welcome.Peers ≠ [env.pretty c] →
          joinParents env sub fuel (afterAnswer w1 c welcome) { id := w1.next, remote := c }
            welcome = some (w4, .ok rec_s) →
          joinParents env sub (fuel + 1) w itors m
            = some (closeStream w4 { id := w1.next, remote := c }, .ok rec_s))
      ∧ (∀ welcome, c ≠ itors.remote → Answers env sub w1 c welcome →
          welcome.Typ = .Update → welcome.Peers = [] →
          joinParents env sub (fuel + 1) w itors m
            = some (afterAnswer w1 c welcome, .error .emptyWelcome)))
    ∧ (∀ (w2 : World) (e : Err),
      joinParents env sub (fuel + 1) w itors m = some (w2, .error e) →
      AllFail env (joinParents env sub fuel) sub itors parents w w2
      ∨ ∃ pre c post w1 welcome, parents = pre ++ c :: post
          ∧ AllFail env (joinParents env sub fuel) sub itors pre w w1 ∧ c ≠ itors.remote
          ∧ Answers env sub w1 c welcome ∧ welcome.Typ = .Update ∧ welcome.Peers = []
          ∧ w2 = afterAnswer w1 c welcome ∧ e = .emptyWelcome) := by
  refine ⟨?_, ?_⟩
  · intro pre c post w1 hsplit hfail
    have hlen : ¬ (pre ++ c :: post).length = 0 := by simp
    have hbody : ∃ last1, joinParents env sub (fuel + 1) w itors m
        = joinParentsLoop env (joinParents env sub fuel) sub itors (c :: post) last1 w1 := by
      obtain ⟨last1, h1⟩ := joinParentsLoop_skip_all env (joinParents env sub fuel) sub itors
        pre (c :: post) w w1 hfail none
      refine ⟨last1, ?_⟩
      simp only [joinParents, joinParentsBody, hdecode, hsplit, if_neg hlen]
      exact h1
    obtain ⟨last1, hb⟩ := hbody
    refine ⟨?_, ?_, ?_, ?_⟩
    · intro hc
      rw [hb, joinParentsLoop, if_pos hc]
    · intro welcome hc ⟨hd, hs, hr⟩ ht hpeers
      rw [hb, joinParentsLoop_update env _ sub itors c post last1 w1 welcome hc hd hs hr ht]
      simp [hpeers, afterAnswer]
    · intro welcome w4 rec_s hc ⟨hd, hs, hr⟩ ht hne hns hrec
      have hlen0 : ¬ welcome.Peers.length = 0 := fun h0 => hne (List.length_eq_zero.mp h0)
      have hself : ¬ (welcome.Peers.length = 1
          ∧ welcome.Peers.head? = some (env.pretty c)) := by
        rintro ⟨ha, hb1⟩
        apply hns
        obtain ⟨x, hx⟩ := List.length_eq_one.mp ha
        rw [hx] at hb1 ⊢
        simp at hb1
        rw [hb1]
      have hrec1 : joinParents env sub fuel
          { next := w1.next + 1,
            trace := w1.trace ++ [Event.dial c (.ok { id := w1.next, remote := c }),
              Event.write { id := w1.next, remote := c } { Typ := .Join } none,
              Event.read { id := w1.next, remote := c } (.ok welcome)] }
          { id := w1.next, remote := c } welcome = some (w4, .ok rec_s) := hrec
      rw [hb, joinParentsLoop_update env _ sub itors c post last1 w1 welcome hc hd hs hr ht]
      rw [if_neg hlen0, if_pos hself, hrec1]
    · intro welcome hc ⟨hd, hs, hr⟩ ht hpeers
      rw [hb, joinParentsLoop_update env _ sub itors c post last1 w1 welcome hc hd hs hr ht]
      simp [hpeers, afterAnswer]
  · intro w2 e h
    simp only [joinParents, joinParentsBody, hdecode] at h
    by_cases hlen : parents.length = 0
    · rw [if_pos hlen] at h
      simp only [Option.some.injEq, Prod.mk.injEq] at h
      left
      rw [List.length_eq_zero.mp hlen, ← h.1]
      exact AllFail.nil w
    · rw [if_neg hlen] at h
      exact joinParentsLoop_error env _ sub itors parents none w w2 e h

/-- C6 (amended) at two concrete welcomes naming the candidates 1 and 2, to
the first of which no connection can be opened. When candidate 2 accepts
directly, the result is the stream opened to candidate 2. When candidate 2
redirects to peer 3, which accepts, the result is the stream opened to peer 3
and the stream to candidate 2 is closed. -/
theorem joinParents_falls_through_witness :
    joinParents unreachableEnv (newSubtree 7 "pubsub") (0 + 1) { next := 1, trace := [] }
        { id := 0, remote := 9 } { Typ := .Update, Peers := ["1", "2"] }
      = some (afterAnswer { next := 1, trace := [Event.dial 1 (.error (.transport 1))] } 2
                { Typ := .Update, Peers := ["2"], TreeWidth := 2, TreeMaxWidth := 4 },
              .ok { id := 1, remote := 2 })
    ∧ joinParents redirectingEnv (newSubtree 7 "pubsub") (1 + 1) { next := 1, trace := [] }
        { id := 0, remote := 9 } { Typ := .Update, Peers := ["1", "2"] }
      = some (closeStream
                (afterAnswer
                  (afterAnswer { next := 1, trace := [Event.dial 1 (.error (.transport 1))] } 2
                    { Typ := .Update, Peers := ["3"], TreeWidth := 2, TreeMaxWidth := 4 })
                  3 { Typ := .Update, Peers := ["3"], TreeWidth := 2, TreeMaxWidth := 4 })
                { id := 1, remote := 2 },
              .ok { id := 2, remote := 3 }) :=
  ⟨((joinParents_falls_through unreachableEnv (newSubtree 7 "pubsub") 0
      { next := 1, trace := [] } { id := 0, remote := 9 }
      { Typ := .Update, Peers := ["1", "2"] } [1, 2] (by decide)).1
      [1] 2 [] { next := 1, trace := [Event.dial 1 (.error (.transport 1))] } rfl
      (AllFail.cons 1 [] _ _ _ (by decide)
        (CandidateFails.connect _ _ (.transport 1) rfl) (AllFail.nil _))).2.1
      { Typ := .Update, Peers := ["2"], TreeWidth := 2, TreeMaxWidth := 4 }
      (by decide) ⟨rfl, rfl, rfl⟩ rfl rfl,
   ((joinParents_falls_through redirectingEnv (newSubtree 7 "pubsub") 1
      { next := 1, trace := [] } { id := 0, remote := 9 }
      { Typ := .Update, Peers := ["1", "2"] } [1, 2] (by decide)).1
      [1] 2 [] { next := 1, trace := [Event.dial 1 (.error (.transport 1))] } rfl
      (AllFail.cons 1 [] _ _ _ (by decide)
        (CandidateFails.connect _ _ (.transport 1) rfl) (AllFail.nil _))).2.2.1
      { Typ := .Update, Peers := ["3"], TreeWidth := 2, TreeMaxWidth := 4 }
      (afterAnswer
        (afterAnswer { next := 1, trace := [Event.dial 1 (.error (.transport 1))] } 2
          { Typ := .Update, Peers := ["3"], TreeWidth := 2, TreeMaxWidth := 4 })
        3 { Typ := .Update, Peers := ["3"], TreeWidth := 2, TreeMaxWidth := 4 })
      { id := 2, remote := 3 }
      (by decide) ⟨rfl, rfl, rfl⟩ rfl (by decide) (by decide) (by decide)⟩

/-! ## The two phases of `forwardMessage` -/

theorem broadcastWrites_quiet (m : Message) (l : List (PeerID × child))
    (rs : List (Option Err)) :
    admissions (broadcastWrites m l rs) = [] ∧ openedStreams (broadcastWrites m l rs) = []
      ∧ dialed (broadcastWrites m l rs) = [] := by
  induction l generalizing rs with
  | nil => exact ⟨rfl, rfl, rfl⟩
  | cons hd rest ih =>
    obtain ⟨k, c⟩ := hd
    cases rs with
    | nil => exact ⟨rfl, rfl, rfl⟩
    | cons r rs1 =>
      obtain ⟨h1, h2, h3⟩ := ih rs1
      exact ⟨by simpa [broadcastWrites, admissions] using h1,
        by simpa [broadcastWrites, openedStreams] using h2,
        by simpa [broadcastWrites, dialed] using h3⟩

/-- The first phase: the message is written once to the stream of every
child, in the order of the map, and `dead` collects the children whose write
failed; nothing else happens. -/
theorem forwardWrites_spec (env : Env) (m : Message) (l : List (PeerID × child)) (w : World) :
    ∃ results : List (Option Err), results.length = l.length
      ∧ forwardWrites env m l w
          = ({ w with trace := w.trace ++ broadcastWrites m l results }, deadOf l results) := by
  induction l generalizing w with
  | nil => exact ⟨[], rfl, by simp [forwardWrites, broadcastWrites, deadOf]⟩
  | cons hd rest ih =>
    obtain ⟨k, c⟩ := hd
    obtain ⟨rs, hlen, hrest⟩ := ih { w with trace := w.trace ++ [Event.write c.s m (env.send w.trace c.s m)] }
    refine ⟨env.send w.trace c.s m :: rs, by simp [hlen], ?_⟩
    unfold forwardWrites
    simp only [writeMessage]
    cases hsend : env.send w.trace c.s m with
    | some e =>
      rw [hsend] at hrest
      simp only [hrest]
      simp [broadcastWrites, deadOf]
    | none =>
      rw [hsend] at hrest
      simp only [hrest]
      simp [broadcastWrites, deadOf]

theorem mem_skeleton_mapInsert (k : PeerID) (c : child) (m : List (PeerID × child))
    (x : PeerID × PeerID × Stream) (hx : x ∈ skeleton (mapInsert k c m)) :
    x ∈ skeleton m ∨ x = (k, c.id, c.s) := by
  induction m with
  | nil =>
    right
    simpa [mapInsert, skeleton] using hx
  | cons hd rest ih =>
    obtain ⟨k1, c1⟩ := hd
    by_cases h : k1 = k
    · simp only [mapInsert, h, if_true, skeleton, List.map_cons, List.mem_cons] at hx
      rcases hx with h1 | h1
      · right; exact h1
      · left
        simp only [skeleton, List.map_cons, List.mem_cons]
        right; exact h1
    · simp only [mapInsert, h, if_false, skeleton, List.map_cons, List.mem_cons] at hx
      rcases hx with h1 | h1
      · left
        simp only [skeleton, List.map_cons, List.mem_cons]
        left; exact h1
      · rcases ih h1 with h2 | h2
        · left
          simp only [skeleton, List.map_cons, List.mem_cons]
          right; exact h2
        · right; exact h2

theorem mem_skeleton_mapDelete (k : PeerID) (m : List (PeerID × child))
    (x : PeerID × PeerID × Stream) (hx : x ∈ skeleton (mapDelete k m)) :
    x ∈ skeleton m ∧ x.1 ≠ k := by
  simp only [skeleton, mapDelete, List.mem_map, List.mem_filter] at hx ⊢
  obtain ⟨e, ⟨he, hk⟩, rfl⟩ := hx
  exact ⟨⟨e, he, rfl⟩, by simpa using hk⟩

/-- A priority admission, as the repair loop sees it. -/
theorem handleJoin_priority (env : Env) (sub : subtree) (w : World) (s : Stream) :
    ∃ w2 sub2 r evs, handleJoin env sub w s true = (w2, sub2, r)
      ∧ w2.trace = w.trace ++ evs ∧ w2.next = w.next
      ∧ admissions evs = [(s, true)] ∧ openedStreams evs = [] ∧ dialed evs = []
      ∧ Frame sub sub2
      ∧ ((sub.children.length : Int) ≤ sub.treeMaxWidth →
          (sub2.children.length : Int) ≤ sub.treeMaxWidth)
      ∧ (∀ x ∈ skeleton sub2.children, x ∈ skeleton sub.children ∨ x.2.2 = s) := by
  obtain ⟨⟨evs, h1, h2, h3, h4⟩, h5⟩ := handleJoin_events env sub w s true
  have hf := handleJoin_frame env sub w s true
  have hc := handleJoin_children env sub w s true
  refine ⟨(handleJoin env sub w s true).1, (handleJoin env sub w s true).2.1,
    (handleJoin env sub w s true).2.2, evs, rfl, h1, h5, h2, h3, h4, hf, ?_, ?_⟩
  · intro hle
    rcases hc with hsk | ⟨hlt, hins⟩
    · have := congrArg List.length hsk
      rw [skeleton_length, skeleton_length] at this
      rw [this]
      exact hle
    · rw [hins]
      have h6 := mapInsert_length s.remote { id := s.remote, s := s } sub.children
      simp only [capOf, if_true] at hlt
      omega
  · intro x hx
    rcases hc with hsk | ⟨_, hins⟩
    · left
      rw [hsk] at hx
      exact hx
    · rw [hins] at hx
      rcases mem_skeleton_mapInsert _ _ _ _ hx with h6 | h6
      · left; exact h6
      · right
        rw [h6]

/-- The inner repair loop: one connection attempt for every identifier that
decodes, one priority admission on every stream opened, and nothing else. -/
theorem repairChildren_spec (env : Env) (cs : List String) (sub : subtree) (w : World) :
    ∃ w1 sub1 ret evs, repairChildren env cs sub w = (w1, sub1, ret)
      ∧ w1.trace = w.trace ++ evs
      ∧ w.next ≤ w1.next
      ∧ (ret = .ok () ∨ ret = .panic)
      ∧ admissions evs = (openedStreams evs).map (fun t => (t, true))
      ∧ (ret = .ok () → dialed evs = cs.filterMap env.decode)
      ∧ (admissions evs = [] → sub1 = sub)
      ∧ ((sub.children.length : Int) ≤ sub.treeMaxWidth →
          (sub1.children.length : Int) ≤ sub.treeMaxWidth)
      ∧ (∀ x ∈ skeleton sub1.children, x ∈ skeleton sub.children ∨ w.next ≤ x.2.2.id)
      ∧ Frame sub sub1 := by
  induction cs generalizing sub w with
  | nil =>
    exact ⟨w, sub, .ok (), [], rfl, by simp, le_refl _, Or.inl rfl, rfl, fun _ => rfl,
      fun _ => rfl, fun h => h, fun x hx => Or.inl hx, Frame.refl _⟩
  | cons ch rest ih =>
    cases hdec : env.decode ch with
    | none =>
      obtain ⟨w1, sub1, ret, evs, h0, h1, h2, h3, h4, h5, h6, h7, h8, h9⟩ := ih sub w
      refine ⟨w1, sub1, ret, evs, ?_, h1, h2, h3, h4, ?_, h6, h7, h8, h9⟩
      · rw [repairChildren]
        simp only [hdec]
        exact h0
      · intro hr
        simp [List.filterMap_cons, hdec, h5 hr]
    | some pid =>
      cases hdial : env.dial w.trace sub.protoid pid with
      | some e =>
        obtain ⟨w1, sub1, ret, evs, h0, h1, h2, h3, h4, h5, h6, h7, h8, h9⟩ :=
          ih sub { w with trace := w.trace ++ [Event.dial pid (.error e)] }
        refine ⟨w1, sub1, ret, Event.dial pid (.error e) :: evs, ?_, ?_, h2, h3, ?_, ?_, ?_,
          h7, h8, h9⟩
        · rw [repairChildren]
          simp only [hdec, newStream, hdial]
          exact h0
        · simp [h1]
        · simpa [admissions, openedStreams] using h4
        · intro hr
          simp [List.filterMap_cons, hdec, dialed, h5 hr]
        · intro ha
          exact h6 (by simpa [admissions] using ha)
      | none =>
        obtain ⟨w2, sub2, r, evsJ, j0, j1, j2, j3, j4, j5, j6, j7, j8⟩ :=
          handleJoin_priority env sub
            { next := w.next + 1,
              trace := w.trace ++ [Event.dial pid (.ok { id := w.next, remote := pid })] }
            { id := w.next, remote := pid }
        simp only [] at j1 j2
        have hstep : repairChildren env (ch :: rest) sub w
            = (match r with
               | .panic => (w2, sub2, .panic)
               | _ => repairChildren env rest sub2 w2) := by
          rw [repairChildren]
          simp only [hdec, newStream, hdial, j0]
          cases r <;> rfl
        have hadm : admissions (Event.dial pid (.ok { id := w.next, remote := pid }) :: evsJ)
            = [(({ id := w.next, remote := pid } : Stream), true)] := by
          simpa [admissions] using j3
        have hopn : openedStreams (Event.dial pid (.ok { id := w.next, remote := pid }) :: evsJ)
            = [{ id := w.next, remote := pid }] := by
          simpa [openedStreams] using j4
        have hprov : ∀ x ∈ skeleton sub2.children,
            x ∈ skeleton sub.children ∨ w.next ≤ x.2.2.id := by
          intro x hx
          rcases j8 x hx with h | h
          · left; exact h
          · right; rw [h]
        by_cases hpanic : r = .panic
        · subst hpanic
          refine ⟨w2, sub2, .panic,
            Event.dial pid (.ok { id := w.next, remote := pid }) :: evsJ,
            hstep, ?_, ?_, Or.inr rfl, ?_, ?_, ?_, j7, hprov, j6⟩
          · simp [j1]
          · omega
          · rw [hadm, hopn]; rfl
          · intro h; cases h
          · intro ha
            rw [hadm] at ha
            cases ha
        · obtain ⟨w1, sub1, ret, evs, h0, h1, h2, h3, h4, h5, h6, h7, h8, h9⟩ := ih sub2 w2
          have hstep2 : repairChildren env (ch :: rest) sub w = (w1, sub1, ret) := by
            rw [hstep, ← h0]
            cases r with
            | panic => exact absurd rfl hpanic
            | ok a => rfl
            | error e => rfl
          have htmw : sub2.treeMaxWidth = sub.treeMaxWidth := j6.2.1
          refine ⟨w1, sub1, ret,
            (Event.dial pid (.ok { id := w.next, remote := pid }) :: evsJ) ++ evs,
            hstep2, ?_, ?_, h3, ?_, ?_, ?_, ?_, ?_, Frame.trans j6 h9⟩
          · simp [h1, j1]
          · omega
          · rw [admissions_append, openedStreams_append, hadm, hopn, h4]
            simp
          · intro hr
            rw [dialed_append]
            simp only [dialed, j5, List.filterMap_cons, hdec, h5 hr]
            simp
          · intro ha
            rw [admissions_append, hadm] at ha
            simp at ha
          · intro hle
            have := h7 (by rw [htmw]; exact j7 hle)
            rw [htmw] at this
            exact this
          · intro x hx
            rcases h8 x hx with h | h
            · exact hprov x h
            · right; omega

/-- The outer repair loop. -/
theorem repairDead_spec (env : Env) (dead : List child) (sub : subtree) (w : World) :
    ∃ w1 sub1 ret evs, repairDead env dead sub w = (w1, sub1, ret)
      ∧ w1.trace = w.trace ++ evs
      ∧ w.next ≤ w1.next
      ∧ (ret = .ok () ∨ ret = .panic)
      ∧ admissions evs = (openedStreams evs).map (fun t => (t, true))
      ∧ (ret = .ok () → dialed evs = repairTargets env dead)
      ∧ (admissions evs = [] → sub1.children.length ≤ sub.children.length)
      ∧ ((sub.children.length : Int) ≤ sub.treeMaxWidth →
          (sub1.children.length : Int) ≤ sub.treeMaxWidth)
      ∧ (∀ x ∈ skeleton sub1.children, x ∈ skeleton sub.children ∨ w.next ≤ x.2.2.id)
      ∧ (ret = .ok () → ∀ x ∈ skeleton sub1.children,
          (∀ d ∈ dead, x.1 ≠ d.id) ∨ w.next ≤ x.2.2.id)
      ∧ Frame sub sub1 := by
  induction dead generalizing sub w with
  | nil =>
    exact ⟨w, sub, .ok (), [], rfl, by simp, le_refl _, Or.inl rfl, rfl, fun _ => rfl,
      fun _ => le_refl _, fun h => h, fun x hx => Or.inl hx,
      fun _ x _ => Or.inl (fun d hd => by simp at hd), Frame.refl _⟩
  | cons hd rest ih =>
    obtain ⟨w2, sub2, r, evsC, c0, c1, c2, c3, c4, c5, c6, c7, c8, c9⟩ :=
      repairChildren_spec env hd.children
        { sub with children := mapDelete hd.id sub.children } w
    have hdel : (mapDelete hd.id sub.children).length ≤ sub.children.length :=
      mapDelete_length _ _
    have hstep : repairDead env (hd :: rest) sub w
        = (match r with
           | .panic => (w2, sub2, .panic)
           | _ => repairDead env rest sub2 w2) := by
      rw [repairDead]
      simp only [c0]
      cases r <;> rfl
    have hfr : Frame sub sub2 := Frame.trans (Frame.children _ _) c9
    have hbound : (sub.children.length : Int) ≤ sub.treeMaxWidth →
        (sub2.children.length : Int) ≤ sub.treeMaxWidth := by
      intro hle
      exact c7 (by simp only []; omega)
    have hprov : ∀ x ∈ skeleton sub2.children,
        (x ∈ skeleton sub.children ∧ x.1 ≠ hd.id) ∨ w.next ≤ x.2.2.id := by
      intro x hx
      rcases c8 x hx with h | h
      · left
        exact mem_skeleton_mapDelete _ _ _ h
      · right; exact h
    by_cases hpanic : r = .panic
    · subst hpanic
      refine ⟨w2, sub2, .panic, evsC, hstep, c1, c2, Or.inr rfl, c4, ?_, ?_, hbound, ?_, ?_,
        hfr⟩
      · intro h; cases h
      · intro ha
        rw [c6 ha]
        exact hdel
      · intro x hx
        rcases hprov x hx with h | h
        · left; exact h.1
        · right; exact h
      · intro h; cases h
    · obtain ⟨w1, sub1, ret, evs, h0, h1, h2, h3, h4, h5, h6, h7, h8, h9, h10⟩ := ih sub2 w2
      have hstep2 : repairDead env (hd :: rest) sub w = (w1, sub1, ret) := by
        rw [hstep, ← h0]
        cases r with
        | panic => exact absurd rfl hpanic
        | ok a => rfl
        | error e => rfl
      have hrok : r = .ok () := by
        rcases c3 with h | h
        · exact h
        · exact absurd h hpanic
      have htmw : sub2.treeMaxWidth = sub.treeMaxWidth := hfr.2.1
      refine ⟨w1, sub1, ret, evsC ++ evs, hstep2, ?_, ?_, h3, ?_, ?_, ?_, ?_, ?_, ?_,
        Frame.trans hfr h10⟩
      · rw [h1, c1, List.append_assoc]
      · omega
      · rw [admissions_append, openedStreams_append, c4, h4, List.map_append]
      · intro hr
        rw [dialed_append, c5 hrok, h5 hr]
        rfl
      · intro ha
        rw [admissions_append] at ha
        have ha1 : admissions evsC = [] := (List.append_eq_nil.mp ha).1
        have ha2 : admissions evs = [] := (List.append_eq_nil.mp ha).2
        have := h6 ha2
        rw [c6 ha1] at this
        simp only [] at this
        omega
      · intro hle
        have := h7 (by rw [htmw]; exact hbound hle)
        rw [htmw] at this
        exact this
      · intro x hx
        rcases h8 x hx with h | h
        · rcases hprov x h with h11 | h11
          · left; exact h11.1
          · right; exact h11
        · right; omega
      · intro hr x hx
        rcases h9 hr x hx with h | h
        · rcases h8 x hx with h11 | h11
          · rcases hprov x h11 with h12 | h12
            · left
              intro d hd1
              rcases List.mem_cons.mp hd1 with rfl | hmem
              · exact h12.2
              · exact h d hmem
            · right; exact h12
          · right; omega
        · right; omega

/-- What `forwardMessage` does, panic apart. The message is written once to
the stream of every current child; the call returns nil unless a priority
admission panics; during the repair exactly one priority admission is entered
on every stream opened and none otherwise; and when the call returns, a
connection was attempted to exactly the identifiers in the dead children's
lists that decode, the dead children are gone from the children map (whatever
is bound to the identifier of a dead child holds a stream opened by this
call), and `treeWidth`, `treeMaxWidth`, `size` and the parent link are
unchanged. -/
theorem forwardMessage_spec (env : Env) (sub : subtree) (w : World) (m : Message) :
    ∃ results evs w1 sub1 ret,
      forwardMessage env sub w m = (w1, sub1, ret)
      ∧ results.length = sub.children.length
      ∧ w1.trace = w.trace ++ broadcastWrites m sub.children results ++ evs
      ∧ (ret = .ok () ∨ ret = .panic)
      ∧ admissions evs = (openedStreams evs).map (fun t => (t, true))
      ∧ (ret = .ok () → dialed evs = repairTargets env (deadOf sub.children results))
      ∧ (ret = .ok () → ∀ e ∈ sub1.children,
          (∀ d ∈ deadOf sub.children results, e.1 ≠ d.id) ∨ w.next ≤ e.2.s.id)
      ∧ Frame sub sub1 := by
  obtain ⟨results, hlen, hw⟩ := forwardWrites_spec env m sub.children w
  obtain ⟨w1, sub1, ret, evs, h0, h1, h2, h3, h4, h5, h6, h7, h8, h9, h10⟩ :=
    repairDead_spec env (deadOf sub.children results) sub
      { w with trace := w.trace ++ broadcastWrites m sub.children results }
  refine ⟨results, evs, w1, sub1, ret, ?_, hlen, h1, h3, h4, h5, ?_, h10⟩
  · unfold forwardMessage
    rw [hw]
    exact h0
  · intro hr e he
    have hx : (e.1, e.2.id, e.2.s) ∈ skeleton sub1.children := by
      simp only [skeleton, List.mem_map]
      exact ⟨e, he, rfl⟩
    exact h9 hr _ hx

/-! ## The fan-out bound when the widths are not replaced -/

theorem priorityAdmissions_of_all_priority (evs : List Event) (ts : List Stream)
    (h : admissions evs = ts.map (fun t => (t, true))) (h0 : priorityAdmissions evs = 0) :
    admissions evs = [] := by
  unfold priorityAdmissions at h0
  rw [h] at h0 ⊢
  cases ts with
  | nil => rfl
  | cons t rest => simp at h0

theorem forwardMessage_fanout (env : Env) (sub : subtree) (w : World) (m : Message) :
    ∃ evs, (forwardMessage env sub w m).1.trace = w.trace ++ evs
      ∧ ((sub.children.length : Int) ≤ sub.treeMaxWidth →
          ((forwardMessage env sub w m).2.1.children.length : Int) ≤ sub.treeMaxWidth)
      ∧ (priorityAdmissions evs = 0 →
          (forwardMessage env sub w m).2.1.children.length ≤ sub.children.length) := by
  obtain ⟨results, hlen, hw⟩ := forwardWrites_spec env m sub.children w
  obtain ⟨w1, sub1, ret, evs, h0, h1, h2, h3, h4, h5, h6, h7, h8, h9, h10⟩ :=
    repairDead_spec env (deadOf sub.children results) sub
      { w with trace := w.trace ++ broadcastWrites m sub.children results }
  have hfm : forwardMessage env sub w m = (w1, sub1, ret) := by
    unfold forwardMessage
    rw [hw]
    exact h0
  rw [hfm]
  refine ⟨broadcastWrites m sub.children results ++ evs, ?_, h7, ?_⟩
  · simp only [h1, List.append_assoc]
  · intro hpa
    rw [priorityAdmissions_append] at hpa
    have hpa2 : priorityAdmissions evs = 0 := by omega
    exact h6 (priorityAdmissions_of_all_priority evs _ h4 hpa2)

theorem step_fanout (env : Env) (st st1 : subtree × World) (op : Op)
    (hop : ∀ fuel s, op ≠ Op.joinToPeer fuel s)
    (hw : st.1.treeWidth ≤ st.1.treeMaxWidth)
    (h : step env st op = some st1) :
    st1.1.treeWidth = st.1.treeWidth ∧ st1.1.treeMaxWidth = st.1.treeMaxWidth
    ∧ ∃ evs, st1.2.trace = st.2.trace ++ evs
      ∧ ((st.1.children.length : Int) ≤ st.1.treeMaxWidth →
          (st1.1.children.length : Int) ≤ st.1.treeMaxWidth)
      ∧ ((st.1.children.length : Int) ≤ st.1.treeWidth → priorityAdmissions evs = 0 →
          (st1.1.children.length : Int) ≤ st.1.treeWidth) := by
  have hjoin : ∀ (s : Stream) (prio : Bool),
      afterCall (handleJoin env st.1 st.2 s prio) = some st1 →
      st1.1.treeWidth = st.1.treeWidth ∧ st1.1.treeMaxWidth = st.1.treeMaxWidth
      ∧ ∃ evs, st1.2.trace = st.2.trace ++ evs
        ∧ ((st.1.children.length : Int) ≤ st.1.treeMaxWidth →
            (st1.1.children.length : Int) ≤ st.1.treeMaxWidth)
        ∧ ((st.1.children.length : Int) ≤ st.1.treeWidth → priorityAdmissions evs = 0 →
            (st1.1.children.length : Int) ≤ st.1.treeWidth) := by
    intro s prio hs
    have hst := afterCall_some _ _ hs
    obtain ⟨⟨evs, e1, e2, _, _⟩, _⟩ := handleJoin_events env st.1 st.2 s prio
    have hf := handleJoin_frame env st.1 st.2 s prio
    have hc := handleJoin_children env st.1 st.2 s prio
    rw [hst]
    refine ⟨hf.1, hf.2.1, evs, e1, ?_, ?_⟩
    · intro hle
      rcases hc with hsk | ⟨hlt, hins⟩
      · have := congrArg List.length hsk
        rw [skeleton_length, skeleton_length] at this
        simp only [this]
        exact hle
      · simp only [hins]
        have h6 := mapInsert_length s.remote { id := s.remote, s := s } st.1.children
        unfold capOf at hlt
        split at hlt <;> omega
    · intro hle hpa
      have hprio : prio = false := by
        cases prio with
        | false => rfl
        | true => simp [priorityAdmissions, e2] at hpa
      subst hprio
      rcases hc with hsk | ⟨hlt, hins⟩
      · have := congrArg List.length hsk
        rw [skeleton_length, skeleton_length] at this
        simp only [this]
        exact hle
      · simp only [hins]
        have h6 := mapInsert_length s.remote { id := s.remote, s := s } st.1.children
        simp only [capOf] at hlt
        simp only [Bool.false_eq_true, if_false] at hlt
        omega
  cases op with
  | joinToPeer fuel s => exact absurd rfl (hop fuel s)
  | joinNewPeer s => exact hjoin s false h
  | handleJoin s prio => exact hjoin s prio h
  | redirectJoin s =>
    have hst := afterCall_some _ _ h
    obtain ⟨⟨evs, e1, _, _, _⟩, _, hsk⟩ := redirectJoin_events env st.1 st.2 s
    have hf := redirectJoin_frame env st.1 st.2 s
    have hl := congrArg List.length hsk
    rw [skeleton_length, skeleton_length] at hl
    rw [hst]
    refine ⟨hf.1, hf.2.1, evs, e1, ?_, ?_⟩
    · intro hle; simp only [hl]; exact hle
    · intro hle _; simp only [hl]; exact hle
  | forwardMessage m =>
    have hst := afterCall_some _ _ h
    obtain ⟨evs, e1, e2, e3⟩ := forwardMessage_fanout env st.1 st.2 m
    have hf := forwardMessage_frame env st.1 st.2 m
    rw [hst]
    refine ⟨hf.1, hf.2.1, evs, e1, e2, ?_⟩
    intro hle hpa
    have := e3 hpa
    simp only []
    omega
  | close =>
    have hst := afterCall_some _ _ h
    rw [hst]
    simp only [Close_eq, true_and]
    unfold Close
    cases hp : st.1.inp with
    | none => exact ⟨[], by simp, fun hle => hle, fun hle _ => hle⟩
    | some parent =>
      exact ⟨[Event.write parent { Typ := .Part } (env.send st.2.trace parent { Typ := .Part }),
        Event.close parent], by simp [writeMessage, closeStream], fun hle => hle,
        fun hle _ => hle⟩
  | report k m =>
    simp only [step] at h
    cases h
    refine ⟨rfl, rfl, [], by simp, ?_, ?_⟩
    · intro hle; simpa [reportAt] using hle
    · intro hle _; simpa [reportAt] using hle

/-- The fan-out bound, as far as it holds. From any state with
`treeWidth <= treeMaxWidth`, along any sequence of `joinNewPeer`,
`handleJoin`, `redirectJoin`, `forwardMessage`, `Close` and report-loop steps
(every operation but `joinToPeer`, which replaces the widths), the widths do
not change; `len(children) <= treeMaxWidth` is preserved; and
`len(children) <= treeWidth` is preserved as long as no priority admission is
entered. -/
theorem fanout_bound_fixed_widths (env : Env) (ops : List Op) (st st1 : subtree × World)
    (hops : ∀ op ∈ ops, ∀ fuel s, op ≠ Op.joinToPeer fuel s)
    (hw : st.1.treeWidth ≤ st.1.treeMaxWidth)
    (hrun : run env ops st = some st1) :
    st1.1.treeWidth = st.1.treeWidth ∧ st1.1.treeMaxWidth = st.1.treeMaxWidth
    ∧ ∃ evs, st1.2.trace = st.2.trace ++ evs
      ∧ ((st.1.children.length : Int) ≤ st.1.treeMaxWidth →
          (st1.1.children.length : Int) ≤ st1.1.treeMaxWidth)
      ∧ ((st.1.children.length : Int) ≤ st.1.treeWidth → priorityAdmissions evs = 0 →
          (st1.1.children.length : Int) ≤ st1.1.treeWidth) := by
  induction ops generalizing st with
  | nil =>
    simp only [run] at hrun
    cases hrun
    exact ⟨rfl, rfl, [], by simp, fun h => h, fun h _ => h⟩
  | cons op ops ih =>
    simp only [run] at hrun
    split at hrun
    · cases hrun
    · next st2 heq =>
      obtain ⟨a1, a2, evs1, a3, a4, a5⟩ :=
        step_fanout env st st2 op (hops op (List.mem_cons_self _ _)) hw heq
      obtain ⟨b1, b2, evs2, b3, b4, b5⟩ :=
        ih st2 (fun o ho => hops o (List.mem_cons_of_mem _ ho)) (by rw [a1, a2]; exact hw) hrun
      refine ⟨b1.trans a1, b2.trans a2, evs1 ++ evs2, ?_, ?_, ?_⟩
      · rw [b3, a3, List.append_assoc]
      · intro hle
        exact b4 (by rw [a2]; exact a4 hle)
      · intro hle hpa
        rw [priorityAdmissions_append] at hpa
        exact b5 (by rw [a1]; exact a5 hle (by omega)) (by omega)

/-! ## Repair with room below the priority cap -/

theorem handleJoin_below_cap (env : Env) (sub : subtree) (w : World) (s : Stream) (prio : Bool)
    (hlt : (sub.children.length : Int) < capOf sub prio) :
    (handleJoin env sub w s prio).2.2 ≠ .panic
    ∧ (handleJoin env sub w s prio).2.1.children.length ≤ sub.children.length + 1 := by
  have hge : ¬ ((sub.children.length : Int) ≥ capOf sub prio) := by omega
  unfold handleJoin
  simp only [hge, if_false]
  split
  · exact ⟨by simp, Nat.le_succ _⟩
  · split
    · exact ⟨by simp, Nat.le_succ _⟩
    · exact ⟨by simp, mapInsert_length _ _ _⟩

theorem repairChildren_room (env : Env) (cs : List String) (sub : subtree) (w : World)
    (hroom : (sub.children.length : Int) + (cs.filterMap env.decode).length
      ≤ sub.treeMaxWidth) :
    (repairChildren env cs sub w).2.2 = .ok ()
    ∧ (repairChildren env cs sub w).2.1.children.length
        ≤ sub.children.length + (cs.filterMap env.decode).length
    ∧ (repairChildren env cs sub w).2.1.treeMaxWidth = sub.treeMaxWidth := by
  induction cs generalizing sub w with
  | nil => exact ⟨rfl, by simp [repairChildren], rfl⟩
  | cons ch rest ih =>
    cases hdec : env.decode ch with
    | none =>
      rw [repairChildren]
      simp only [hdec, List.filterMap_cons] at hroom ⊢
      exact ih sub w hroom
    | some pid =>
      simp only [List.filterMap_cons, hdec, List.length_cons] at hroom ⊢
      cases hdial : env.dial w.trace sub.protoid pid with
      | some e =>
        rw [repairChildren]
        simp only [hdec, newStream, hdial]
        obtain ⟨h1, h2, h3⟩ := ih sub { w with trace := w.trace ++ [Event.dial pid (.error e)] }
          (by push_cast at hroom ⊢; omega)
        exact ⟨h1, by omega, h3⟩
      | none =>
        have hlt : (sub.children.length : Int) < capOf sub true := by
          simp only [capOf, if_true]
          push_cast at hroom
          omega
        obtain ⟨hnp, hlen⟩ := handleJoin_below_cap env sub
          { next := w.next + 1,
            trace := w.trace ++ [Event.dial pid (.ok { id := w.next, remote := pid })] }
          { id := w.next, remote := pid } true hlt
        have hfr := handleJoin_frame env sub
          { next := w.next + 1,
            trace := w.trace ++ [Event.dial pid (.ok { id := w.next, remote := pid })] }
          { id := w.next, remote := pid } true
        rcases hj : handleJoin env sub
          { next := w.next + 1,
            trace := w.trace ++ [Event.dial pid (.ok { id := w.next, remote := pid })] }
          { id := w.next, remote := pid } true with ⟨w2, sub2, r⟩
        rw [hj] at hnp hlen hfr
        simp only [] at hnp hlen hfr
        have htmw : sub2.treeMaxWidth = sub.treeMaxWidth := hfr.2.1
        obtain ⟨h1, h2, h3⟩ := ih sub2 w2 (by rw [htmw]; push_cast at hroom ⊢; omega)
        rw [repairChildren]
        simp only [hdec, newStream, hdial, hj]
        cases r with
        | panic => exact absurd rfl hnp
        | ok a => exact ⟨h1, by omega, h3.trans htmw⟩
        | error e => exact ⟨h1, by omega, h3.trans htmw⟩

theorem repairDead_room (env : Env) (dead : List child) (sub : subtree) (w : World)
    (hroom : (sub.children.length : Int) + (repairTargets env dead).length
      ≤ sub.treeMaxWidth) :
    (repairDead env dead sub w).2.2 = .ok () := by
  induction dead generalizing sub w with
  | nil => rfl
  | cons hd rest ih =>
    simp only [repairTargets, List.length_append] at hroom
    have hdel : (mapDelete hd.id sub.children).length ≤ sub.children.length :=
      mapDelete_length _ _
    obtain ⟨h1, h2, h3⟩ := repairChildren_room env hd.children
      { sub with children := mapDelete hd.id sub.children } w
      (by simp only []; push_cast at hroom ⊢; omega)
    rcases hc : repairChildren env hd.children
      { sub with children := mapDelete hd.id sub.children } w with ⟨w1, sub2, r⟩
    rw [hc] at h1 h2 h3
    simp only [] at h1 h2 h3
    subst h1
    rw [repairDead]
    simp only [hc]
    exact ih sub2 w1 (by rw [h3]; push_cast at hroom ⊢; omega)

theorem repairTargets_deadOf_length (env : Env) (l : List (PeerID × child))
    (rs : List (Option Err)) :
    (repairTargets env (deadOf l rs)).length
      ≤ (repairTargets env (l.map (fun e => e.2))).length := by
  induction l generalizing rs with
  | nil => cases rs <;> simp [deadOf, repairTargets]
  | cons hd rest ih =>
    obtain ⟨k, c⟩ := hd
    cases rs with
    | nil => simp [deadOf, repairTargets]
    | cons r rs1 =>
      have := ih rs1
      cases r with
      | none =>
        simp only [deadOf, List.map_cons, repairTargets, List.length_append]
        omega
      | some e =>
        simp only [deadOf, List.map_cons, repairTargets, List.length_append]
        omega

/-- With room below the priority cap for every peer a repair could bring in
(the number of children plus the number of decodable identifiers in all the
children's last-reported lists is at most `treeMaxWidth`), `forwardMessage`
returns nil. -/
theorem forwardMessage_returns_nil (env : Env) (sub : subtree) (w : World) (m : Message)
    (hroom : (sub.children.length : Int)
        + (repairTargets env (sub.children.map (fun e => e.2))).length
      ≤ sub.treeMaxWidth) :
    (forwardMessage env sub w m).2.2 = .ok () := by
  obtain ⟨results, _, hw⟩ := forwardWrites_spec env m sub.children w
  unfold forwardMessage
  rw [hw]
  apply repairDead_room
  have := repairTargets_deadOf_length env sub.children results
  omega

/-! ## Broadcast and repair -/

theorem run_cons_of_step (env : Env) (op : Op) (ops : List Op) (st st1 : subtree × World)
    (h : step env st op = some st1) : run env (op :: ops) st = run env ops st1 := by
  simp only [run, h]

theorem run_cons_of_step_none (env : Env) (op : Op) (ops : List Op) (st : subtree × World)
    (h : step env st op = none) : run env (op :: ops) st = none := by
  simp only [run, h]

/-- C4 on the code: a reachable state in which `forwardMessage` does not
return. A fresh node attaches through a welcome carrying `TreeWidth = 2`,
`TreeMaxWidth = 1`, admits `X` (peer 5) and `Y` (peer 6); `X` reports the child
8 and `Y` reports `NumPeers = 9999999999`. A broadcast whose write to `X`
fails removes `X`, opens a stream to peer 8 and invokes the priority admission;
the node is full (1 child, `treeMaxWidth = 1`), the redirect scan finds no
child of size below `10000000000`, and `redirectJoin` panics on the nil
`minc`: `forwardMessage` panics instead of returning nil. The last equation
shows the whole call from an empty history. -/
theorem forwardMessage_panics_in_repair :
    run (brokenLinkEnv 2 1)
        [Op.joinToPeer 1 { id := 0, remote := 1 }, Op.joinNewPeer { id := 1, remote := 5 },
         Op.joinNewPeer { id := 2, remote := 6 },
         Op.report 5 { Typ := .State, Peers := ["8"], NumPeers := 1 },
         Op.report 6 { Typ := .State, NumPeers := 9999999999 }]
        (newSubtree 7 "pubsub", { next := 3, trace := [] })
      = some repairSt5
    ∧ (forwardMessage (brokenLinkEnv 2 1) repairSt5.1 repairSt5.2 { Typ := .other 0 }).2.2
        = .panic
    ∧ forwardMessage (brokenLinkEnv 2 1) repairSt5.1 { next := 3, trace := [] }
          { Typ := .other 0 }
        = ({ next := 4,
             trace := [Event.write { id := 1, remote := 5 } { Typ := .other 0 }
                 (some (.transport 1)),
               Event.write { id := 2, remote := 6 } { Typ := .other 0 } none,
               Event.dial 8 (.ok { id := 3, remote := 8 }),
               Event.admission { id := 3, remote := 8 } true,
               Event.close { id := 3, remote := 8 }] },
           { repairSt1.1 with
               children := [(6, { id := 6, s := { id := 2, remote := 6 },
                                  size := 10000000000 })] },
           .panic) := by
  have h1 : step (brokenLinkEnv 2 1) (newSubtree 7 "pubsub", { next := 3, trace := [] })
      (Op.joinToPeer 1 { id := 0, remote := 1 }) = some repairSt1 := by decide
  have h2 : step (brokenLinkEnv 2 1) repairSt1 (Op.joinNewPeer { id := 1, remote := 5 })
      = some repairSt2 := by decide
  have h3 : step (brokenLinkEnv 2 1) repairSt2 (Op.joinNewPeer { id := 2, remote := 6 })
      = some repairSt3 := by decide
  have h4 : step (brokenLinkEnv 2 1) repairSt3
      (Op.report 5 { Typ := .State, Peers := ["8"], NumPeers := 1 }) = some repairSt4 := by
    decide
  have h5 : step (brokenLinkEnv 2 1) repairSt4
      (Op.report 6 { Typ := .State, NumPeers := 9999999999 }) = some repairSt5 := by
    decide
  refine ⟨?_, by decide, by decide⟩
  rw [run_cons_of_step _ _ _ _ _ h1, run_cons_of_step _ _ _ _ _ h2,
    run_cons_of_step _ _ _ _ _ h3, run_cons_of_step _ _ _ _ _ h4,
    run_cons_of_step _ _ _ _ _ h5]
  rfl

/-- The repair example of the specification: children `{X, Y}`, `X` reports
the grandchildren `{g1, g2}` (peers 8 and 9), the write to `X` fails. The
message is written to both children, `X` is removed, and one priority
admission is made for each of `g1` and `g2` on a newly opened stream; both are
admitted although the node then has 3 children and `treeWidth = 2`, since
the cap of a priority admission is `treeMaxWidth = 4`. The call returns nil. -/
theorem forwardMessage_repairs_example :
    forwardMessage (brokenLinkEnv 2 4) twoChildren { next := 3, trace := [] }
        { Typ := .other 0 }
      = ({ next := 5,
           trace := [Event.write { id := 1, remote := 5 } { Typ := .other 0 }
               (some (.transport 1)),
             Event.write { id := 2, remote := 6 } { Typ := .other 0 } none,
             Event.dial 8 (.ok { id := 3, remote := 8 }),
             Event.admission { id := 3, remote := 8 } true,
             Event.write { id := 3, remote := 8 }
               { Typ := .Update, Peers := ["7"], TreeWidth := 2, TreeMaxWidth := 4 } none,
             Event.write { id := 0, remote := 1 } { Typ := .State, Peers := ["8"] } none,
             Event.spawn { id := 8, s := { id := 3, remote := 8 } },
             Event.dial 9 (.ok { id := 4, remote := 9 }),
             Event.admission { id := 4, remote := 9 } true,
             Event.write { id := 4, remote := 9 }
               { Typ := .Update, Peers := ["7"], TreeWidth := 2, TreeMaxWidth := 4 } none,
             Event.write { id := 0, remote := 1 } { Typ := .State, Peers := ["9"] } none,
             Event.spawn { id := 9, s := { id := 4, remote := 9 } }] },
         { twoChildren with
             children := [(6, { id := 6, s := { id := 2, remote := 6 } }),
                          (8, { id := 8, s := { id := 3, remote := 8 } }),
                          (9, { id := 9, s := { id := 4, remote := 9 } })] },
         .ok ()) := by
  decide

end Pubsub
